import Mathlib

/-!
# File-sharing service (`main.go`): upload validation, identifiers, storage, retrieval

A shallow embedding of the Go program.

* Go strings are byte sequences and are modelled as lists of natural numbers, one
  number per byte; runes are obtained by UTF-8 decoding as `range` does.
* The functions of the Go standard library that the program calls are written out
  as executable definitions: `unicode/utf8` decoding and encoding, `strings`
  (`Contains`, `ContainsAny`, `HasPrefix`, `Map`, `ToLower`), `path/filepath` on a
  Unix platform (`Base`, `Ext`, `Clean`, `Join`, `Abs`), `crypto/md5` and the `%x`
  and `%d` verbs of `fmt`. The Unicode case table for runes outside ASCII is a
  parameter.
* The handlers are functions on an explicit state: the package variable
  `fileStore`, the regular files on disk, and the result of `os.Getwd`. What the
  environment does during an upload (failures of `Open`, `os.Create`, `io.Copy`,
  the clock readings) is part of the input. `http.ServeFile` is taken for a plain
  request of an existing regular file, where it sends the bytes of the file.
* An upload request arrives as its file parts; `parseMultipartForm` applies the body
  limit and builds the file headers as `mime/multipart` does (`Filename` is the base
  name of the client's filename, `Size` the number of bytes of the part).
* Requests are taken one after the other.
-/

namespace FileShare

/-! ## Go strings -/

/-- Go string: a sequence of bytes, each a natural number below 256. -/
abbrev GoString := List Nat

/-- Bytes of an ASCII literal. -/
def str (s : String) : GoString := s.data.map Char.toNat

/-- Value of `utf8.RuneError`, the replacement character U+FFFD. -/
def RuneError : Nat := 0xFFFD

/-- Length in bytes of the encoding announced by a leading byte from 0xC2 to 0xF4
(the low bits of Go's table `first`). -/
def utf8Size (s0 : Nat) : Nat := if s0 < 0xE0 then 2 else if s0 < 0xF0 then 3 else 4

/-- Lowest second byte accepted after the leading byte `s0` (Go's `acceptRanges`). -/
def acceptLo (s0 : Nat) : Nat := if s0 = 0xE0 then 0xA0 else if s0 = 0xF0 then 0x90 else 0x80

/-- Highest second byte accepted after the leading byte `s0` (Go's `acceptRanges`). -/
def acceptHi (s0 : Nat) : Nat := if s0 = 0xED then 0x9F else if s0 = 0xF4 then 0x8F else 0xBF

/-- Go `utf8.DecodeRuneInString`: the first rune of `s` and its width in bytes.
Invalid or truncated encodings give `(RuneError, 1)`; the empty string gives
`(RuneError, 0)`. The masks and shifts of the Go code are written with `%` and `*`
(`s0 & 0x1F` is `s0 % 32`, `<< 6` is `* 64`, and `|` of disjoint bit fields is `+`). -/
def decodeRune : GoString → Nat × Nat
  | [] => (RuneError, 0)
  | s0 :: t =>
    if s0 < 0x80 then (s0, 1)
    else if s0 < 0xC2 ∨ 0xF4 < s0 then (RuneError, 1)
    else if t.length + 1 < utf8Size s0 then (RuneError, 1)
    else
      match t with
      | [] => (RuneError, 1)
      | s1 :: t1 =>
        if s1 < acceptLo s0 ∨ acceptHi s0 < s1 then (RuneError, 1)
        else if utf8Size s0 ≤ 2 then ((s0 % 32) * 64 + s1 % 64, 2)
        else
          match t1 with
          | [] => (RuneError, 1)
          | s2 :: t2 =>
            if s2 < 0x80 ∨ 0xBF < s2 then (RuneError, 1)
            else if utf8Size s0 ≤ 3 then ((s0 % 16) * 4096 + (s1 % 64) * 64 + s2 % 64, 3)
            else
              match t2 with
              | [] => (RuneError, 1)
              | s3 :: _ =>
                if s3 < 0x80 ∨ 0xBF < s3 then (RuneError, 1)
                else ((s0 % 8) * 262144 + (s1 % 64) * 4096 + (s2 % 64) * 64 + s3 % 64, 4)

/-- Runes visited by `for _, c := range s`, with a step budget. Every step consumes
at least one byte, so a budget of `s.length` steps always reaches the end. -/
def runesAux : Nat → GoString → List Nat
  | 0, _ => []
  | _ + 1, [] => []
  | fuel + 1, b :: t =>
    (decodeRune (b :: t)).1 :: runesAux fuel ((b :: t).drop (decodeRune (b :: t)).2)

/-- Runes visited by `for _, c := range s`. -/
def runes (s : GoString) : List Nat := runesAux s.length s

/-- Go `utf8.AppendRune` for a non-negative rune: its UTF-8 encoding. Surrogates and
values above U+10FFFF are encoded as `RuneError`. -/
def encodeRune (r : Nat) : GoString :=
  if r < 0x80 then [r]
  else if r ≤ 0x7FF then [0xC0 + r / 64, 0x80 + r % 64]
  else if 0x10FFFF < r ∨ (0xD800 ≤ r ∧ r ≤ 0xDFFF) then [0xEF, 0xBF, 0xBD]
  else if r ≤ 0xFFFF then [0xE0 + r / 4096, 0x80 + (r / 64) % 64, 0x80 + r % 64]
  else [0xF0 + r / 262144, 0x80 + (r / 4096) % 64, 0x80 + (r / 64) % 64, 0x80 + r % 64]

/-- Go `strings.Map`: every rune of `s` is replaced by the encoding of its image, and
dropped when the mapping returns a negative value (here `none`). -/
def stringsMap (mapping : Nat → Option Nat) (s : GoString) : GoString :=
  (runes s).flatMap fun c =>
    match mapping c with
    | none => []
    | some r => encodeRune r

/-- Go `strings.Contains`: `substr` occurs in `s`. -/
def Contains : GoString → GoString → Bool
  | [], substr => substr.isEmpty
  | c :: s, substr => substr.isPrefixOf (c :: s) || Contains s substr

/-- Go `strings.ContainsAny`, that is `IndexAny(s, chars) >= 0`: some code point of
`chars` occurs in `s`. A set of one byte is looked up with `IndexRune`; for more
than eight bytes and an ASCII set the search is byte-wise; otherwise every rune of
`s` is looked up in `chars` (`IndexRune(chars, c) >= 0`, which holds exactly when
`c` is one of the runes of `chars`). -/
def ContainsAny (s chars : GoString) : Bool :=
  match chars with
  | [] => false
  | [c] => if c < 0x80 then s.contains c else (runes s).contains RuneError
  | _ =>
    if 8 < s.length ∧ chars.all (fun c => c < 0x80) then s.any fun b => chars.contains b
    else (runes s).any fun c => (runes chars).contains c

/-- Go `strings.HasPrefix`. -/
def HasPrefix (s pre : GoString) : Bool := pre.isPrefixOf s

/-- ASCII lower-casing of one byte or rune. -/
def lowerASCII (c : Nat) : Nat := if 0x41 ≤ c ∧ c ≤ 0x5A then c + 0x20 else c

/-- Go `unicode.ToLower`: ASCII letters are handled directly, every other rune goes
through the Unicode case table `lowerTable` of the Go runtime. -/
def unicodeToLower (lowerTable : Nat → Nat) (r : Nat) : Nat :=
  if r ≤ 0x7F then lowerASCII r else lowerTable r

/-- Go `strings.ToLower`: a byte-wise pass for ASCII-only strings, and
`Map(unicode.ToLower, s)` otherwise. -/
def ToLower (lowerTable : Nat → Nat) (s : GoString) : GoString :=
  if s.all (fun c => c < 0x80) then s.map lowerASCII
  else stringsMap (fun r => some (unicodeToLower lowerTable r)) s

/-! ## `path/filepath` on Unix: the separator is `/` (byte 0x2F), no volume names -/

/-- First loop of `filepath.Base`: trailing slashes are removed. -/
def stripTrailingSlashes (path : GoString) : GoString :=
  (path.reverse.dropWhile fun c => c == 0x2F).reverse

/-- Second loop of `filepath.Base`: the bytes after the last slash. -/
def lastElement (path : GoString) : GoString :=
  (path.reverse.takeWhile fun c => c != 0x2F).reverse

/-- Go `filepath.Base`: the last element of the path, after removing trailing
slashes; `.` for the empty path and `/` for a path made of slashes only. -/
def Base (path : GoString) : GoString :=
  if path = [] then [0x2E]
  else
    let path := stripTrailingSlashes path
    let path := lastElement path
    if path = [] then [0x2F] else path

/-- Backward scan of `filepath.Ext`: `rev` holds the bytes still to visit, last byte
first, and `acc` the bytes already passed. -/
def extScan : GoString → GoString → GoString
  | [], _ => []
  | c :: rev, acc =>
    if c = 0x2F then []
    else if c = 0x2E then c :: acc
    else extScan rev (c :: acc)

/-- Go `filepath.Ext`: the suffix starting at the last dot of the last path element,
or the empty string when that element has no dot. -/
def Ext (path : GoString) : GoString := extScan path.reverse []

/-- State of the loop of `filepath.Clean`: the output buffer, last byte first (its
length is the write index `w`), and the index `dotdot` below which `..` must not
backtrack. -/
structure CleanState where
  rout : GoString
  dotdot : Nat
deriving DecidableEq, Repr

/-- Backtracking loop of `filepath.Clean` after `out.w--`: `x` is the byte at the
write index and `rest` the buffer below it; bytes are removed until the write
index reaches `dotdot` or the byte at it is a separator. -/
def cleanBacktrack (dotdot : Nat) : Nat → GoString → GoString
  | _, [] => []
  | x, y :: rest =>
    if dotdot < (y :: rest).length ∧ x ≠ 0x2F then cleanBacktrack dotdot y rest
    else y :: rest

/-- The `..` case of `filepath.Clean`. -/
def cleanDotDot (rooted : Bool) (st : CleanState) : CleanState :=
  if st.dotdot < st.rout.length then
    match st.rout with
    | [] => st
    | x :: rest => { st with rout := cleanBacktrack st.dotdot x rest }
  else if !rooted then
    let r1 := if 0 < st.rout.length then 0x2F :: st.rout else st.rout
    let r2 := 0x2E :: 0x2E :: r1
    { rout := r2, dotdot := r2.length }
  else st

/-- Start of a real path element in `filepath.Clean`: a separator is written when
the buffer already holds an element, then the first byte `c` of the element. -/
def cleanStartElem (rooted : Bool) (st : CleanState) (c : Nat) : CleanState :=
  if (rooted && st.rout.length != 1) || (!rooted && st.rout.length != 0) then
    { st with rout := c :: 0x2F :: st.rout }
  else { st with rout := c :: st.rout }

/-- Main loop of `filepath.Clean` over the bytes still to read. The flag tells
whether the inner loop that copies a path element is running; that loop ends at a
separator, which the outer loop then skips as an empty element. -/
def cleanLoop (rooted : Bool) : Bool → CleanState → GoString → CleanState
  | _, st, [] => st
  | true, st, c :: rest =>
    if c = 0x2F then cleanLoop rooted false st rest
    else cleanLoop rooted true { st with rout := c :: st.rout } rest
  | false, st, [c] =>
    if c = 0x2F then st
    else if c = 0x2E then st
    else cleanStartElem rooted st c
  | false, st, c :: d :: rest =>
    if c = 0x2F then cleanLoop rooted false st (d :: rest)
    else if c = 0x2E ∧ d = 0x2F then cleanLoop rooted false st (d :: rest)
    else if c = 0x2E ∧ d = 0x2E ∧ (rest = [] ∨ rest.head? = some 0x2F) then
      cleanLoop rooted false (cleanDotDot rooted st) rest
    else cleanLoop rooted true (cleanStartElem rooted st c) (d :: rest)

/-- Go `filepath.Clean`: the shortest equivalent path, by lexical processing. -/
def Clean (path : GoString) : GoString :=
  if path = [] then [0x2E]
  else
    let rooted := path.head? == some 0x2F
    let st0 : CleanState := if rooted then ⟨[0x2F], 1⟩ else ⟨[], 0⟩
    let st := cleanLoop rooted false st0 (if rooted then path.tail else path)
    if st.rout = [] then [0x2E] else st.rout.reverse

/-- Go `strings.Join(elems, "/")`. -/
def joinSlash : List GoString → GoString
  | [] => []
  | [e] => e
  | e :: f :: rest => e ++ 0x2F :: joinSlash (f :: rest)

/-- Go `filepath.Join`: leading empty elements are ignored, the others are joined with
the separator and the result is cleaned; the empty string when all are empty. -/
def Join (elem : List GoString) : GoString :=
  match elem.dropWhile fun e => e.isEmpty with
  | [] => []
  | e :: rest => Clean (joinSlash (e :: rest))

/-- Go `filepath.Abs`, given the result `cwd` of `os.Getwd` (`none` when it fails):
`none` is the error return. -/
def Abs (cwd : Option GoString) (path : GoString) : Option GoString :=
  if path.head? == some 0x2F then some (Clean path)
  else
    match cwd with
    | none => none
    | some wd => some (Join [wd, path])

/-! ## Upload validation -/

/-- The fields of `multipart.FileHeader` that the program reads. `ContentType` is
`Header.Get("Content-Type")`. -/
structure FileHeader where
  Filename : GoString
  Size : Int
  ContentType : GoString
deriving DecidableEq, Repr

/-- Upload size limit, `50 * 1024 * 1024`. -/
def maxFileSize : Int := 50 * 1024 * 1024

/-- Allow-list of extensions in `validateFile`. -/
def allowedExts : List GoString :=
  [str ".jpg", str ".jpeg", str ".png", str ".gif", str ".pdf", str ".txt", str ".zip"]

/-- Allow-list of media types in `validateFile`. -/
def allowedTypes : List GoString :=
  [str "image/jpeg", str "image/png", str "image/gif",
   str "application/pdf", str "text/plain", str "application/zip",
   str "application/x-zip-compressed", str "application/octet-stream"]

/-- Go `validateFile`: `none` is the `nil` error, `some msg` an error with that text. -/
def validateFile (lowerTable : Nat → Nat) (fileHeader : FileHeader) : Option GoString :=
  if fileHeader.Size > maxFileSize then
    some (str "file size too large (max 50MB)")
  else
    let filename := Base fileHeader.Filename
    if Contains filename (str "..") || ContainsAny filename [0x2F, 0x5C] then
      some (str "invalid filename")
    else
      let ext := ToLower lowerTable (Ext filename)
      let allowed := allowedExts.any fun allowedExt => ext == allowedExt
      if !allowed then
        some (str "file type not allowed")
      else
        let mimeType := fileHeader.ContentType
        let allowed := allowedTypes.any fun allowedType => mimeType == allowedType
        if !allowed then
          some (str "MIME type not allowed: " ++ mimeType)
        else
          none

/-! ## `crypto/md5` and `fmt` -/

/-- Per-round left-rotation amounts of MD5 (RFC 1321). -/
def md5Shifts : List Nat :=
  [7, 12, 17, 22, 7, 12, 17, 22, 7, 12, 17, 22, 7, 12, 17, 22,
   5, 9, 14, 20, 5, 9, 14, 20, 5, 9, 14, 20, 5, 9, 14, 20,
   4, 11, 16, 23, 4, 11, 16, 23, 4, 11, 16, 23, 4, 11, 16, 23,
   6, 10, 15, 21, 6, 10, 15, 21, 6, 10, 15, 21, 6, 10, 15, 21]

/-- Per-round additive constants of MD5, `floor(2^32 * |sin(i + 1)|)`. -/
def md5K : List Nat :=
  [0xd76aa478, 0xe8c7b756, 0x242070db, 0xc1bdceee,
   0xf57c0faf, 0x4787c62a, 0xa8304613, 0xfd469501,
   0x698098d8, 0x8b44f7af, 0xffff5bb1, 0x895cd7be,
   0x6b901122, 0xfd987193, 0xa679438e, 0x49b40821,
   0xf61e2562, 0xc040b340, 0x265e5a51, 0xe9b6c7aa,
   0xd62f105d, 0x02441453, 0xd8a1e681, 0xe7d3fbc8,
   0x21e1cde6, 0xc33707d6, 0xf4d50d87, 0x455a14ed,
   0xa9e3e905, 0xfcefa3f8, 0x676f02d9, 0x8d2a4c8a,
   0xfffa3942, 0x8771f681, 0x6d9d6122, 0xfde5380c,
   0xa4beea44, 0x4bdecfa9, 0xf6bb4b60, 0xbebfbc70,
   0x289b7ec6, 0xeaa127fa, 0xd4ef3085, 0x04881d05,
   0xd9d4d039, 0xe6db99e5, 0x1fa27cf8, 0xc4ac5665,
   0xf4292244, 0x432aff97, 0xab9423a7, 0xfc93a039,
   0x655b59c3, 0x8f0ccc92, 0xffeff47d, 0x85845dd1,
   0x6fa87e4f, 0xfe2ce6e0, 0xa3014314, 0x4e0811a1,
   0xf7537e82, 0xbd3af235, 0x2ad7d2bb, 0xeb86d391]

/-- Rotation of a 32-bit word to the left by `n` bits. -/
def rotl32 (x n : Nat) : Nat := ((x <<< n) ||| (x >>> (32 - n))) % 2 ^ 32

/-- Complement of a 32-bit word. -/
def not32 (x : Nat) : Nat := x ^^^ 0xFFFFFFFF

/-- The four 32-bit chaining words of MD5. -/
structure Md5State where
  a : Nat
  b : Nat
  c : Nat
  d : Nat
deriving DecidableEq, Repr

/-- Initial chaining value of MD5. -/
def md5Init : Md5State := ⟨0x67452301, 0xefcdab89, 0x98badcfe, 0x10325476⟩

/-- MD5 padding: a 0x80 byte, zero bytes up to 56 modulo 64, then the bit length as
eight little-endian bytes. -/
def md5Pad (msg : GoString) : GoString :=
  let n := msg.length
  let zeros := (55 + 64 - n % 64) % 64
  let bits := (8 * n) % 2 ^ 64
  msg ++ [0x80] ++ List.replicate zeros 0 ++ (List.range 8).map fun i => (bits >>> (8 * i)) % 256

/-- Little-endian 32-bit word number `j` of a block. -/
def md5Word (block : GoString) (j : Nat) : Nat :=
  block.getD (4 * j) 0 % 256 + (block.getD (4 * j + 1) 0 % 256) * 2 ^ 8
    + (block.getD (4 * j + 2) 0 % 256) * 2 ^ 16 + (block.getD (4 * j + 3) 0 % 256) * 2 ^ 24

/-- One of the 64 steps of the MD5 compression function. -/
def md5Step (block : GoString) (s : Md5State) (i : Nat) : Md5State :=
  let f :=
    if i < 16 then (s.b &&& s.c) ||| (not32 s.b &&& s.d)
    else if i < 32 then (s.d &&& s.b) ||| (not32 s.d &&& s.c)
    else if i < 48 then s.b ^^^ s.c ^^^ s.d
    else s.c ^^^ (s.b ||| not32 s.d)
  let g :=
    if i < 16 then i
    else if i < 32 then (5 * i + 1) % 16
    else if i < 48 then (3 * i + 5) % 16
    else (7 * i) % 16
  let x := (f + s.a + md5K.getD i 0 + md5Word block g) % 2 ^ 32
  ⟨s.d, (s.b + rotl32 x (md5Shifts.getD i 0)) % 2 ^ 32, s.b, s.c⟩

/-- MD5 compression of one 64-byte block into the chaining value. -/
def md5Block (s : Md5State) (block : GoString) : Md5State :=
  let r := (List.range 64).foldl (md5Step block) s
  ⟨(s.a + r.a) % 2 ^ 32, (s.b + r.b) % 2 ^ 32, (s.c + r.c) % 2 ^ 32, (s.d + r.d) % 2 ^ 32⟩

/-- Four little-endian bytes of a 32-bit word. -/
def le32 (x : Nat) : GoString := [x % 256, (x / 2 ^ 8) % 256, (x / 2 ^ 16) % 256, (x / 2 ^ 24) % 256]

/-- Go `md5.Sum`: the 16-byte MD5 digest of `data`. -/
def md5Sum (data : GoString) : GoString :=
  let padded := md5Pad data
  let s := (List.range (padded.length / 64)).foldl
    (fun st k => md5Block st ((padded.drop (64 * k)).take 64)) md5Init
  le32 s.a ++ le32 s.b ++ le32 s.c ++ le32 s.d

/-- Lowercase hexadecimal digit of a value below 16. -/
def hexDigit (v : Nat) : Nat := if v < 10 then 0x30 + v else 0x61 + (v - 10)

/-- Go `fmt.Sprintf("%x", bytes)`: two lowercase hexadecimal digits per byte. -/
def hexString (bytes : GoString) : GoString :=
  bytes.flatMap fun b => [hexDigit (b / 16 % 16), hexDigit (b % 16)]

/-- Decimal digits of `n` in front of `acc`, with a step budget; each step emits the
last digit and divides by ten. -/
def decimalAux : Nat → Nat → GoString → GoString
  | 0, _, acc => acc
  | fuel + 1, n, acc =>
    if n < 10 then (0x30 + n) :: acc
    else decimalAux fuel (n / 10) ((0x30 + n % 10) :: acc)

/-- Decimal digits of a natural number. A number `n` has at most `n + 1` decimal
digits, which bounds the number of steps. -/
def decimalNat (n : Nat) : GoString := decimalAux (n + 1) n []

/-- Go `%d` of a signed integer. -/
def formatInt : Int → GoString
  | Int.ofNat m => decimalNat m
  | Int.negSucc m => 0x2D :: decimalNat (m + 1)

/-! ## Identifier generation -/

/-- Go `generateFileID`; `now` is the reading of `time.Now().UnixNano()`. -/
def generateFileID (filename : GoString) (now : Int) : GoString :=
  let safeFilename := Base filename
  let data := safeFilename ++ [0x2D] ++ formatInt now
  let hash := md5Sum data
  hexString hash

/-- Go `isHexString`: every rune of `s` is a hexadecimal digit. -/
def isHexString (s : GoString) : Bool :=
  (runes s).all fun c =>
    (0x30 ≤ c && c ≤ 0x39) || (0x61 ≤ c && c ≤ 0x66) || (0x41 ≤ c && c ≤ 0x46)

/-- Go `sanitizeFilename`: the base name without control characters and quotes. -/
def sanitizeFilename (filename : GoString) : GoString :=
  let filename := Base filename
  stringsMap (fun r => if r < 32 ∨ r = 0x22 ∨ r = 0x27 then none else some r) filename

/-! ## Program state and HTTP handlers -/

/-- Go `FileInfo`. `UploadTime` is the clock reading taken when the record is built. -/
structure FileInfo where
  ID : GoString
  OriginalName : GoString
  Size : Int
  UploadTime : Int
  MimeType : GoString
deriving DecidableEq, Repr

/-- Go map with string keys, as an association list with one entry per key. -/
abbrev GoMap (α : Type) := List (GoString × α)

/-- Map read `m[k]`: `none` when the key is absent. -/
def GoMap.get {α : Type} (m : GoMap α) (k : GoString) : Option α :=
  (m.find? fun e => e.1 == k).map fun e => e.2

/-- Map write `m[k] = v`: an existing entry for the key is replaced. -/
def GoMap.set {α : Type} (m : GoMap α) (k : GoString) (v : α) : GoMap α :=
  (k, v) :: m.filter fun e => e.1 != k

/-- What the handlers read and write: the package variable `fileStore`, the regular
files on disk (keyed by the path given to `os.Create` and `os.Stat`), and the
result of `os.Getwd` (`none` when it fails). -/
structure World where
  fileStore : GoMap FileInfo
  disk : GoMap (List Nat)
  cwd : Option GoString
deriving DecidableEq, Repr

/-- One entry of `r.MultipartForm.File["files"]` together with what the environment
does while the handler processes it: whether `fileHeader.Open` and `os.Create`
fail, whether `io.Copy` fails (and after how many bytes), and the two clock
readings, in `generateFileID` and for `UploadTime`. -/
structure Upload where
  header : FileHeader
  content : List Nat
  openFails : Bool
  idClock : Int
  createFails : Bool
  copyFails : Option Nat
  uploadTime : Int
deriving DecidableEq, Repr

/-- Body of a response: text, or the value handed to the JSON encoder, or the bytes
of a served file. -/
inductive Body where
  | text (s : GoString)
  | uploaded (files : List FileInfo)
  | info (file : FileInfo)
  | file (content : List Nat)
deriving DecidableEq, Repr

/-- HTTP response: status code, the headers set by the handler, and the body. -/
structure Response where
  status : Nat
  headers : List (GoString × GoString)
  body : Body
deriving DecidableEq, Repr

deriving instance DecidableEq for Except

/-- Go `http.Error`: a plain-text response with the given status; the message is
followed by a newline. -/
def httpError (msg : GoString) (code : Nat) : Response :=
  ⟨code, [(str "Content-Type", str "text/plain; charset=utf-8"),
          (str "X-Content-Type-Options", str "nosniff")], Body.text (msg ++ [0x0A])⟩

/-- The constant `uploadDir`. -/
def uploadDir : GoString := str "./uploads"

/-- Body of the `for` loop of `uploadHandler` and `apiUploadHandler` for one file:
the new state, and either the response that ends the request or the record that
is appended to `uploadedFiles`. -/
def uploadOne (lowerTable : Nat → Nat) (w : World) (u : Upload) : World × Except Response FileInfo :=
  if u.openFails then
    (w, .error (httpError (str "\x7b\"error\": \"Cannot open file\"\x7d") 500))
  else
    match validateFile lowerTable u.header with
    | some err =>
      (w, .error (httpError (str "\x7b\"error\": \"" ++ err ++ str "\"\x7d") 400))
    | none =>
      let fileID := generateFileID u.header.Filename u.idClock
      let filePath := Join [uploadDir, fileID]
      if u.createFails then
        (w, .error (httpError (str "\x7b\"error\": \"Failed to save file\"\x7d") 500))
      else
        match u.copyFails with
        | some n =>
          ({ w with disk := w.disk.set filePath (u.content.take n) },
            .error (httpError (str "\x7b\"error\": \"Failed to save file\"\x7d") 500))
        | none =>
          let fileInfo : FileInfo :=
            { ID := fileID
              OriginalName := u.header.Filename
              Size := u.header.Size
              UploadTime := u.uploadTime
              MimeType := u.header.ContentType }
          ({ w with disk := w.disk.set filePath u.content
                    fileStore := w.fileStore.set fileID fileInfo }, .ok fileInfo)

/-- The `for` loop of the upload handlers over the files of the request:
`uploadedFiles` accumulates the records, the first failure ends the request. -/
def uploadLoop (lowerTable : Nat → Nat) :
    World → List FileInfo → List Upload → World × Except Response (List FileInfo)
  | w, uploadedFiles, [] => (w, .ok uploadedFiles)
  | w, uploadedFiles, u :: rest =>
    match uploadOne lowerTable w u with
    | (w1, .error resp) => (w1, .error resp)
    | (w1, .ok fileInfo) => uploadLoop lowerTable w1 (uploadedFiles ++ [fileInfo]) rest

/-- Go `uploadHandler` from the point where `r.ParseMultipartForm` has returned without
error (lines 313 to 365): `files` is `r.MultipartForm.File["files"]`. The body
limit and the parsing in front of it are in `uploadHandlerRequest`. -/
def uploadHandler (lowerTable : Nat → Nat) (w : World) (files : List Upload) : World × Response :=
  if files.length = 0 then
    (w, httpError (str "\x7b\"error\": \"No files to upload\"\x7d") 400)
  else
    match uploadLoop lowerTable w [] files with
    | (w1, .error resp) => (w1, resp)
    | (w1, .ok uploadedFiles) =>
      (w1, ⟨200, [(str "Content-Type", str "application/json")], Body.uploaded uploadedFiles⟩)

/-- Go `apiUploadHandler` from the point where `r.ParseMultipartForm` has returned
without error (lines 379 to 431): `files` is `r.MultipartForm.File["files"]`. The
body limit and the parsing in front of it are in `apiUploadHandlerRequest`. -/
def apiUploadHandler (lowerTable : Nat → Nat) (w : World) (files : List Upload) : World × Response :=
  if files.length = 0 then
    (w, httpError (str "\x7b\"error\": \"No files to upload\"\x7d") 400)
  else
    match uploadLoop lowerTable w [] files with
    | (w1, .error resp) => (w1, resp)
    | (w1, .ok uploadedFiles) =>
      (w1, ⟨200, [(str "Content-Type", str "application/json")], Body.uploaded uploadedFiles⟩)

/-- Go `downloadHandler` for the path variable `fileID`. `http.ServeFile` is taken
for a plain request, where it answers 200 with the bytes of the file. -/
def downloadHandler (w : World) (fileID : GoString) : Response :=
  if fileID.length != 32 || !isHexString fileID then
    httpError (str "Invalid file ID") 400
  else
    match w.fileStore.get fileID with
    | none => httpError (str "File not found") 404
    | some fileInfo =>
      let filePath := Join [uploadDir, fileID]
      match Abs w.cwd filePath with
      | none => httpError (str "Invalid file path") 500
      | some absPath =>
        let absUploadDir := (Abs w.cwd uploadDir).getD []
        if !HasPrefix absPath absUploadDir then
          httpError (str "Access denied") 403
        else
          match w.disk.get filePath with
          | none => httpError (str "File does not exist") 404
          | some content =>
            ⟨200,
              [(str "Content-Disposition",
                  str "attachment; filename=\"" ++ sanitizeFilename fileInfo.OriginalName ++ str "\""),
               (str "Content-Type", fileInfo.MimeType),
               (str "X-Content-Type-Options", str "nosniff")],
              Body.file content⟩

/-- Go `fileInfoHandler` for the path variable `fileID`. -/
def fileInfoHandler (w : World) (fileID : GoString) : Response :=
  if fileID.length != 32 || !isHexString fileID then
    httpError (str "Invalid file ID") 400
  else
    match w.fileStore.get fileID with
    | none => httpError (str "File not found") 404
    | some fileInfo => ⟨200, [(str "Content-Type", str "application/json")], Body.info fileInfo⟩

/-- Go `apiFileInfoHandler` for the path variable `fileID`. -/
def apiFileInfoHandler (w : World) (fileID : GoString) : Response :=
  if fileID.length != 32 || !isHexString fileID then
    httpError (str "\x7b\"error\": \"Invalid file ID\"\x7d") 400
  else
    match w.fileStore.get fileID with
    | none => httpError (str "\x7b\"error\": \"File not found\"\x7d") 404
    | some fileInfo => ⟨200, [(str "Content-Type", str "application/json")], Body.info fileInfo⟩

/-- State of the program at start: empty `fileStore`, whatever is on disk. -/
def World.start (disk : GoMap (List Nat)) (cwd : Option GoString) : World := ⟨[], disk, cwd⟩

/-- State after a sequence of parsed forms; each is the list of its files and a flag
telling whether it goes to `/api/upload` or to `/upload`. -/
def runUploads (lowerTable : Nat → Nat) : World → List (Bool × List Upload) → World
  | w, [] => w
  | w, (api, files) :: reqs =>
    runUploads lowerTable
      (if api then (apiUploadHandler lowerTable w files).1 else (uploadHandler lowerTable w files).1)
      reqs

/-! ## Upload requests as they arrive -/

/-- A part of the request body for the form field `files`, as the client sent it:
the `filename` parameter of its `Content-Disposition`, its `Content-Type`, its
bytes; and what the environment does while the handler processes it (see
`Upload`). -/
structure Part where
  clientFilename : GoString
  contentType : GoString
  content : List Nat
  openFails : Bool
  idClock : Int
  createFails : Bool
  copyFails : Option Nat
  uploadTime : Int
deriving DecidableEq, Repr

/-- The `multipart.FileHeader` that `r.ParseMultipartForm` builds for a file part
(`mime/multipart`): `Filename` is `filepath.Base` of the name the client sent, `Size`
is the number of bytes of the part, and the header carries the part's
`Content-Type`. -/
def Part.toUpload (p : Part) : Upload :=
  { header := ⟨Base p.clientFilename, p.content.length, p.contentType⟩
    content := p.content
    openFails := p.openFails
    idClock := p.idClock
    createFails := p.createFails
    copyFails := p.copyFails
    uploadTime := p.uploadTime }

/-- An upload request: the parts for the field `files` in the order of the body, the
number of bytes of the body outside the contents of these parts (boundaries, part
headers, other fields), and whether parsing fails for a reason other than the
size of the body. -/
structure Request where
  parts : List Part
  otherBytes : Nat
  parseFails : Bool
deriving DecidableEq, Repr

/-- Length of the request body in bytes. -/
def Request.bodyLength (req : Request) : Nat :=
  req.otherBytes + (req.parts.map fun p => p.content.length).sum

/-- Go `r.ParseMultipartForm(maxFileSize)` on a body wrapped in
`http.MaxBytesReader(w, r.Body, maxFileSize)`: an error (`none`) when the body is
longer than the limit or cannot be parsed, else the value of
`r.MultipartForm.File["files"]`. A part with an empty filename is a plain form
value, not a file. -/
def parseMultipartForm (req : Request) : Option (List Upload) :=
  if maxFileSize < req.bodyLength ∨ req.parseFails = true then none
  else some ((req.parts.filter fun p => !p.clientFilename.isEmpty).map Part.toUpload)

/-- Go `uploadHandler` on a request as it arrives (lines 302 to 366): the body limit
and `r.ParseMultipartForm` first, then the handler on the parsed files. -/
def uploadHandlerRequest (lowerTable : Nat → Nat) (w : World) (req : Request) :
    World × Response :=
  match parseMultipartForm req with
  | none => (w, httpError (str "\x7b\"error\": \"File size too large (max 50MB)\"\x7d") 400)
  | some files => uploadHandler lowerTable w files

/-- Go `apiUploadHandler` on a request as it arrives (lines 368 to 432). -/
def apiUploadHandlerRequest (lowerTable : Nat → Nat) (w : World) (req : Request) :
    World × Response :=
  match parseMultipartForm req with
  | none => (w, httpError (str "\x7b\"error\": \"File size too large (max 50MB)\"\x7d") 400)
  | some files => apiUploadHandler lowerTable w files

/-- State after a sequence of upload requests as they arrive; the flag of a request
tells whether it goes to `/api/upload` or to `/upload`. -/
def runRequests (lowerTable : Nat → Nat) : World → List (Bool × Request) → World
  | w, [] => w
  | w, (api, req) :: reqs =>
    runRequests lowerTable
      (if api then (apiUploadHandlerRequest lowerTable w req).1
        else (uploadHandlerRequest lowerTable w req).1)
      reqs

/-! ## Specification-side definitions -/

/-- Byte of a hexadecimal digit, `[0-9a-fA-F]`. -/
def isHexByte (b : Nat) : Bool :=
  (0x30 ≤ b && b ≤ 0x39) || (0x61 ≤ b && b ≤ 0x66) || (0x41 ≤ b && b ≤ 0x46)

/-- Byte of a lowercase hexadecimal digit, `[0-9a-f]`. -/
def isLowerHexByte (b : Nat) : Bool := (0x30 ≤ b && b ≤ 0x39) || (0x61 ≤ b && b ≤ 0x66)

/-- The string matches `^[0-9a-fA-F]{32}$`: exactly 32 bytes, each a hexadecimal digit. -/
def matchesHex32 (s : GoString) : Bool := s.length == 32 && s.all isHexByte

/-- Outcome of upload validation in the words of the specification. -/
inductive Verdict where
  | accepted
  | tooLarge
  | unsafeName
  | typeNotAllowed
  | mimeNotAllowed
deriving DecidableEq, Repr

/-- Validation as the specification words it: the first failing check, in the order
size, unsafe name (on the directory-stripped filename), extension (lower-cased,
of the stripped filename), declared media type. -/
def validateSpec (lowerTable : Nat → Nat) (filename : GoString) (size : Int)
    (mediaType : GoString) : Verdict :=
  if size > 52428800 then Verdict.tooLarge
  else if str ".." <:+: Base filename ∨ 0x2F ∈ Base filename ∨ 0x5C ∈ Base filename then
    Verdict.unsafeName
  else if ToLower lowerTable (Ext (Base filename)) ∉
      [str ".jpg", str ".jpeg", str ".png", str ".gif", str ".pdf", str ".txt", str ".zip"] then
    Verdict.typeNotAllowed
  else if mediaType ∉
      [str "image/jpeg", str "image/png", str "image/gif", str "application/pdf",
       str "text/plain", str "application/zip", str "application/x-zip-compressed",
       str "application/octet-stream"] then
    Verdict.mimeNotAllowed
  else Verdict.accepted

/-- The Go error value that stands for a verdict: `none` is `nil`. -/
def Verdict.toError (mediaType : GoString) : Verdict → Option GoString
  | Verdict.accepted => none
  | Verdict.tooLarge => some (str "file size too large (max 50MB)")
  | Verdict.unsafeName => some (str "invalid filename")
  | Verdict.typeNotAllowed => some (str "file type not allowed")
  | Verdict.mimeNotAllowed => some (str "MIME type not allowed: " ++ mediaType)

set_option maxRecDepth 8000

/-! ## Sample data -/

/-- Sample state: empty index, empty disk, working directory `/srv`. -/
def sampleWorld : World := ⟨[], [], some (str "/srv")⟩

/-- Sample file that is accepted and stored: `report.pdf`, 4 bytes. -/
def sampleGood : Upload :=
  ⟨⟨str "report.pdf", 4, str "application/pdf"⟩, [37, 80, 68, 70], false,
    1700000000000000000, false, none, 1700000000000000500⟩

/-- Sample file that fails validation: the extension `.exe` is not allowed. -/
def sampleBad : Upload :=
  ⟨⟨str "tool.exe", 2, str "application/octet-stream"⟩, [77, 90], false,
    1700000000000001000, false, none, 1700000000000001500⟩

/-- Sample file that is accepted and stored: `notes.txt`, 2 bytes. -/
def sampleOther : Upload :=
  ⟨⟨str "notes.txt", 2, str "text/plain"⟩, [104, 105], false,
    1700000000000002000, false, none, 1700000000000002500⟩

/-- Sample part whose client filename has a directory: `../b.txt`, one byte. -/
def samplePart : Part :=
  ⟨str "../b.txt", str "text/plain", [120], false, 1700000000000003000, false, none,
    1700000000000003500⟩

/-- Sample request with the one part `samplePart`. -/
def sampleRequest : Request := ⟨[samplePart], 200, false⟩

/-- Sample request of two parts named `x/a.txt` and `y/a.txt` that observe the same
clock reading. -/
def sampleTwins : Request :=
  ⟨[⟨str "x/a.txt", str "text/plain", [1], false, 1700000000000000000, false, none, 0⟩,
    ⟨str "y/a.txt", str "text/plain", [2], false, 1700000000000000000, false, none, 0⟩],
   300, false⟩

/-! ## UTF-8 decoding: ASCII bytes are their own runes -/

/-- A leading byte of at least 0x80 yields a rune of at least 0x80 and consumes only
bytes of at least 0x80. -/
theorem decodeRune_high (b : Nat) (t : GoString) (hb : ¬ b < 0x80) :
    (0x80 ≤ (decodeRune (b :: t)).1 ∧ 1 ≤ (decodeRune (b :: t)).2 ∧
      ∀ x ∈ (b :: t).take (decodeRune (b :: t)).2, 0x80 ≤ x) := by
  generalize h : decodeRune (b :: t) = p
  unfold decodeRune at h
  simp only [hb, if_false] at h
  repeat' split at h
  all_goals subst h
  all_goals simp only [RuneError, List.take, List.mem_cons, List.mem_nil_iff, or_false,
    forall_eq_or_imp, forall_eq, List.not_mem_nil, false_imp_iff, implies_true, and_true,
    List.take_nil, List.take_zero, List.take_succ_cons]
  all_goals (try simp only [utf8Size, acceptLo, acceptHi] at *)
  all_goals (first | omega | (split_ifs at * <;> omega))

theorem decodeRune_ascii (b : Nat) (t : GoString) (hb : b < 0x80) :
    decodeRune (b :: t) = (b, 1) := by
  simp [decodeRune, hb]

theorem runesAux_cons (fuel b : Nat) (t : GoString) :
    runesAux (fuel + 1) (b :: t) =
      (decodeRune (b :: t)).1 :: runesAux fuel ((b :: t).drop (decodeRune (b :: t)).2) := rfl

/-- A byte string made of ASCII bytes is its own sequence of runes. -/
theorem runesAux_ascii (fuel : Nat) : ∀ s : GoString, s.length ≤ fuel →
    (∀ b ∈ s, b < 0x80) → runesAux fuel s = s := by
  induction fuel with
  | zero =>
    intro s hs _
    have : s = [] := List.length_eq_zero.mp (by omega)
    subst this; rfl
  | succ n ih =>
    intro s hs h
    cases s with
    | nil => rfl
    | cons b t =>
      have hb : b < 0x80 := h b (by simp)
      rw [runesAux_cons, decodeRune_ascii b t hb]
      simp only [List.drop_succ_cons, List.drop_zero]
      rw [ih t (by simpa using hs) (fun x hx => h x (by simp [hx]))]

/-- An ASCII rune produced by the decoder is a byte of the string. -/
theorem mem_of_mem_runesAux (fuel : Nat) : ∀ s : GoString, ∀ r ∈ runesAux fuel s,
    r < 0x80 → r ∈ s := by
  induction fuel with
  | zero => intro s r hr; simp [runesAux] at hr
  | succ n ih =>
    intro s r hr hlow
    cases s with
    | nil => simp [runesAux] at hr
    | cons b t =>
      rw [runesAux_cons, List.mem_cons] at hr
      rcases hr with hr | hr
      · by_cases hb : b < 0x80
        · rw [decodeRune_ascii b t hb] at hr
          simp [hr]
        · have := (decodeRune_high b t hb).1
          omega
      · exact List.mem_of_mem_drop (ih _ r hr hlow)

/-- An ASCII byte of the string is one of the runes produced by the decoder. -/
theorem mem_runesAux_of_mem (fuel : Nat) : ∀ s : GoString, s.length ≤ fuel →
    ∀ b ∈ s, b < 0x80 → b ∈ runesAux fuel s := by
  induction fuel with
  | zero =>
    intro s hs b hb
    have : s = [] := List.length_eq_zero.mp (by omega)
    subst this; simp at hb
  | succ n ih =>
    intro s hs x hx hlow
    cases s with
    | nil => simp at hx
    | cons b t =>
      rw [runesAux_cons, List.mem_cons]
      by_cases hb : b < 0x80
      · rw [decodeRune_ascii b t hb]
        simp only [List.drop_succ_cons, List.drop_zero]
        rcases List.mem_cons.mp hx with h | h
        · left; exact h
        · right; exact ih t (by simpa using hs) x h hlow
      · right
        obtain ⟨_, hw, htake⟩ := decodeRune_high b t hb
        have hsplit := List.take_append_drop (decodeRune (b :: t)).2 (b :: t)
        rw [← hsplit] at hx
        rcases List.mem_append.mp hx with h | h
        · have := htake x h
          omega
        · refine ih _ ?_ x h hlow
          simp only [List.length_drop, List.length_cons] at hs ⊢
          omega

/-- When every rune is ASCII the string is ASCII and equals its rune sequence. -/
theorem runesAux_eq_of_low (fuel : Nat) : ∀ s : GoString, s.length ≤ fuel →
    (∀ r ∈ runesAux fuel s, r < 0x80) → runesAux fuel s = s := by
  induction fuel with
  | zero =>
    intro s hs _
    have : s = [] := List.length_eq_zero.mp (by omega)
    subst this; rfl
  | succ n ih =>
    intro s hs h
    cases s with
    | nil => rfl
    | cons b t =>
      rw [runesAux_cons] at h ⊢
      by_cases hb : b < 0x80
      · rw [decodeRune_ascii b t hb] at h ⊢
        simp only [List.drop_succ_cons, List.drop_zero] at h ⊢
        rw [ih t (by simpa using hs) (fun x hx => h x (by simp [hx]))]
      · have h1 := (decodeRune_high b t hb).1
        have h2 := h _ (List.mem_cons_self _ _)
        omega

theorem runes_ascii (s : GoString) (h : ∀ b ∈ s, b < 0x80) : runes s = s :=
  runesAux_ascii s.length s le_rfl h

theorem runes_eq_of_low (s : GoString) (h : ∀ r ∈ runes s, r < 0x80) : runes s = s :=
  runesAux_eq_of_low s.length s le_rfl h

theorem mem_runes_iff (s : GoString) (b : Nat) (hb : b < 0x80) : b ∈ runes s ↔ b ∈ s :=
  ⟨fun h => mem_of_mem_runesAux _ s b h hb, fun h => mem_runesAux_of_mem _ s le_rfl b h hb⟩

/-! ## The identifier gate of the retrieval handlers -/

/-- The rune-wise check of `isHexString` holds exactly when every byte is a
hexadecimal digit. -/
theorem isHexString_eq_all (s : GoString) : isHexString s = s.all isHexByte := by
  have key : ∀ l : List Nat, (l.all fun c =>
      (decide (0x30 ≤ c) && decide (c ≤ 0x39)) || (decide (0x61 ≤ c) && decide (c ≤ 0x66)) ||
        (decide (0x41 ≤ c) && decide (c ≤ 0x46))) = l.all isHexByte := fun l => rfl
  unfold isHexString
  rw [key]
  by_cases h : s.all isHexByte = true
  · have hlow : ∀ b ∈ s, b < 0x80 := by
      intro b hb
      have := List.all_eq_true.mp h b hb
      simp [isHexByte] at this
      omega
    rw [runes_ascii s hlow]
  · by_cases h2 : (runes s).all isHexByte = true
    · have hlow : ∀ r ∈ runes s, r < 0x80 := by
        intro r hr
        have := List.all_eq_true.mp h2 r hr
        simp [isHexByte] at this
        omega
      rw [runes_eq_of_low s hlow] at h2
      exact absurd h2 h
    · simp only [Bool.not_eq_true] at h h2
      rw [h, h2]

/-- The test of the handlers, `len(fileID) != 32 || !isHexString(fileID)`, is true
exactly for the strings that are not 32 hexadecimal digits. -/
theorem gate_eq (s : GoString) :
    (s.length != 32 || !isHexString s) = !matchesHex32 s := by
  rw [isHexString_eq_all]
  unfold matchesHex32
  cases h1 : (s.length == 32) <;> cases h2 : s.all isHexByte <;> simp [bne, h1]

/-- Claim C4: for every identifier string and every state of the index and the
disk, each of `downloadHandler`, `fileInfoHandler` and `apiFileInfoHandler`
answers with status 400 if and only if the string is not made of exactly 32
hexadecimal digits, and the answer is then the invalid-id error whatever the
index holds. -/
theorem invalid_id_iff (w : World) (s : GoString) :
    ((downloadHandler w s).status = 400 ↔ matchesHex32 s = false) ∧
    ((fileInfoHandler w s).status = 400 ↔ matchesHex32 s = false) ∧
    ((apiFileInfoHandler w s).status = 400 ↔ matchesHex32 s = false) ∧
    (matchesHex32 s = false →
      downloadHandler w s = httpError (str "Invalid file ID") 400 ∧
      fileInfoHandler w s = httpError (str "Invalid file ID") 400 ∧
      apiFileInfoHandler w s = httpError (str "\x7b\"error\": \"Invalid file ID\"\x7d") 400) := by
  unfold downloadHandler fileInfoHandler apiFileInfoHandler
  rw [gate_eq]
  cases h : matchesHex32 s
  · simp [httpError]
  · simp only [Bool.not_true, Bool.false_eq_true, if_false, iff_false, false_imp_iff, and_true]
    refine ⟨?_, ?_, ?_⟩
    · cases w.fileStore.get s with
      | none => simp [httpError]
      | some fi =>
        simp only []
        cases Abs w.cwd (Join [uploadDir, s]) with
        | none => simp [httpError]
        | some absPath =>
          simp only []
          split
          · simp [httpError]
          · cases w.disk.get (Join [uploadDir, s]) <;> simp [httpError]
    · cases w.fileStore.get s <;> simp [httpError]
    · cases w.fileStore.get s <;> simp [httpError]

/-! ## Identifier generation -/

/-- The digest has 16 bytes. -/
theorem md5Sum_length (data : GoString) : (md5Sum data).length = 16 := by
  simp [md5Sum, le32]

/-- The model of `md5.Sum` reproduces the digests of the RFC 1321 test suite for the
empty string, `a`, `abc` and `message digest`. -/
theorem md5Sum_test_vectors :
    hexString (md5Sum (str "")) = str "d41d8cd98f00b204e9800998ecf8427e" ∧
    hexString (md5Sum (str "a")) = str "0cc175b9c0f1b6a831c399e269772661" ∧
    hexString (md5Sum (str "abc")) = str "900150983cd24fb0d6963f7d28e17f72" ∧
    hexString (md5Sum (str "message digest")) = str "f96b697d7cb7938d525a2f31aaf161d0" := by
  refine ⟨?_, ?_, ?_, ?_⟩ <;> decide

theorem hexString_length (bytes : GoString) : (hexString bytes).length = 2 * bytes.length := by
  induction bytes with
  | nil => rfl
  | cons b t ih =>
    simp only [hexString, List.flatMap_cons, List.length_append, List.length_cons,
      List.length_nil] at ih ⊢
    omega

theorem hexDigit_lower (v : Nat) (hv : v < 16) : isLowerHexByte (hexDigit v) = true := by
  unfold hexDigit isLowerHexByte
  split_ifs <;> simp <;> omega

theorem hexString_lower (bytes : GoString) : ∀ c ∈ hexString bytes, isLowerHexByte c = true := by
  intro c hc
  simp only [hexString, List.mem_flatMap, List.mem_cons, List.mem_nil_iff, or_false] at hc
  obtain ⟨b, _, rfl | rfl⟩ := hc
  · exact hexDigit_lower _ (Nat.mod_lt _ (by norm_num))
  · exact hexDigit_lower _ (Nat.mod_lt _ (by norm_num))

theorem isHexByte_of_lower (c : Nat) (h : isLowerHexByte c = true) : isHexByte c = true := by
  unfold isLowerHexByte at h
  unfold isHexByte
  rw [h]
  rfl

/-- Claim C8: for every filename and clock reading, `generateFileID` returns exactly
32 bytes, each a lowercase hexadecimal digit; they are the hexadecimal rendering
of the 16-byte MD5 digest of the base name, a dash and the decimal clock reading;
and the identifier passes the gate `len(id) == 32 && isHexString(id)` of the
retrieval handlers. -/
theorem generateFileID_format (filename : GoString) (now : Int) :
    (generateFileID filename now).length = 32 ∧
    (∀ c ∈ generateFileID filename now, isLowerHexByte c = true) ∧
    generateFileID filename now =
      hexString (md5Sum (Base filename ++ str "-" ++ formatInt now)) ∧
    (md5Sum (Base filename ++ str "-" ++ formatInt now)).length = 16 ∧
    ((generateFileID filename now).length != 32 || !isHexString (generateFileID filename now))
      = false := by
  have hlen : (generateFileID filename now).length = 32 := by
    simp only [generateFileID, hexString_length, md5Sum_length]
  have hlow : ∀ c ∈ generateFileID filename now, isLowerHexByte c = true :=
    fun c hc => hexString_lower _ c hc
  refine ⟨hlen, hlow, rfl, md5Sum_length _, ?_⟩
  rw [gate_eq]
  simp only [matchesHex32, hlen, beq_self_eq_true, Bool.true_and, Bool.not_eq_false_eq_eq_true,
    Bool.not_eq_eq_eq_not, Bool.not_false, List.all_eq_true]
  exact fun c hc => isHexByte_of_lower c (hlow c hc)

/-! ## Upload validation -/

theorem Contains_iff (s substr : GoString) : Contains s substr = true ↔ substr <:+: s := by
  induction s with
  | nil => simp [Contains, List.isEmpty_iff]
  | cons c s ih =>
    rw [Contains, Bool.or_eq_true, ih, List.infix_cons_iff, List.isPrefixOf_iff_prefix]

theorem ContainsAny_separators (s : GoString) :
    ContainsAny s [0x2F, 0x5C] = true ↔ 0x2F ∈ s ∨ 0x5C ∈ s := by
  have hr : runes [0x2F, 0x5C] = [0x2F, 0x5C] := by decide
  have h47 := mem_runes_iff s 0x2F (by norm_num)
  have h92 := mem_runes_iff s 0x5C (by norm_num)
  unfold ContainsAny
  rw [hr]
  simp only
  split_ifs with h
  · simp only [List.any_eq_true, List.contains_eq_any_beq, List.any_cons, List.any_nil,
      Bool.or_false, Bool.or_eq_true, beq_iff_eq]
    constructor
    · rintro ⟨x, hx, rfl | rfl⟩
      · exact Or.inl hx
      · exact Or.inr hx
    · rintro (h | h)
      · exact ⟨_, h, Or.inl rfl⟩
      · exact ⟨_, h, Or.inr rfl⟩
  · simp only [List.any_eq_true, List.contains_eq_any_beq, List.any_cons, List.any_nil,
      Bool.or_false, Bool.or_eq_true, beq_iff_eq]
    constructor
    · rintro ⟨x, hx, rfl | rfl⟩
      · exact Or.inl (h47.mp hx)
      · exact Or.inr (h92.mp hx)
    · rintro (h | h)
      · exact ⟨_, h47.mpr h, Or.inl rfl⟩
      · exact ⟨_, h92.mpr h, Or.inr rfl⟩

theorem any_beq_iff_mem (x : GoString) (l : List GoString) :
    (l.any fun a => x == a) = true ↔ x ∈ l := by
  rw [List.any_eq_true]
  constructor
  · rintro ⟨a, ha, hxa⟩
    rw [beq_iff_eq] at hxa
    exact hxa ▸ ha
  · intro h
    exact ⟨x, h, beq_self_eq_true x⟩

/-- The Go function computes the verdict of the specification. -/
theorem validateFile_eq_toError (lowerTable : Nat → Nat) (filename : GoString) (size : Int)
    (mediaType : GoString) :
    validateFile lowerTable ⟨filename, size, mediaType⟩ =
      (validateSpec lowerTable filename size mediaType).toError mediaType := by
  unfold validateFile validateSpec
  simp only [maxFileSize]
  by_cases h1 : size > 52428800
  · have h1' : size > 50 * 1024 * 1024 := by omega
    simp [h1, h1', Verdict.toError]
  · have h1' : ¬ size > 50 * 1024 * 1024 := by omega
    simp only [h1, h1', if_false]
    by_cases h2 : str ".." <:+: Base filename ∨ 0x2F ∈ Base filename ∨ 0x5C ∈ Base filename
    · have : (Contains (Base filename) (str "..") || ContainsAny (Base filename) [0x2F, 0x5C])
          = true := by
        rw [Bool.or_eq_true, Contains_iff, ContainsAny_separators]
        exact h2
      simp [h2, this, Verdict.toError]
    · have : ¬ (Contains (Base filename) (str "..") || ContainsAny (Base filename) [0x2F, 0x5C])
          = true := by
        rw [Bool.or_eq_true, Contains_iff, ContainsAny_separators]
        exact h2
      simp only [Bool.not_eq_true] at this
      simp only [h2, this, Bool.false_eq_true, if_false]
      by_cases h3 : ToLower lowerTable (Ext (Base filename)) ∈
          [str ".jpg", str ".jpeg", str ".png", str ".gif", str ".pdf", str ".txt", str ".zip"]
      · have h3' : (allowedExts.any fun a => ToLower lowerTable (Ext (Base filename)) == a)
            = true := (any_beq_iff_mem _ _).mpr h3
        simp only [h3', Bool.not_true, Bool.false_eq_true, if_false, h3, not_true_eq_false]
        by_cases h4 : mediaType ∈
            [str "image/jpeg", str "image/png", str "image/gif", str "application/pdf",
             str "text/plain", str "application/zip", str "application/x-zip-compressed",
             str "application/octet-stream"]
        · have h4' : (allowedTypes.any fun a => mediaType == a) = true :=
            (any_beq_iff_mem _ _).mpr h4
          simp only [h4', Bool.not_true, Bool.false_eq_true, if_false, h4, not_true_eq_false,
            Verdict.toError]
        · have h4' : ¬ (allowedTypes.any fun a => mediaType == a) = true :=
            fun h => h4 ((any_beq_iff_mem _ _).mp h)
          simp only [Bool.not_eq_true] at h4'
          simp only [h4', Bool.not_false, if_true, h4, not_false_eq_true, Verdict.toError]
      · have h3' : ¬ (allowedExts.any fun a => ToLower lowerTable (Ext (Base filename)) == a)
            = true := fun h => h3 ((any_beq_iff_mem _ _).mp h)
        simp only [Bool.not_eq_true] at h3'
        simp only [h3', Bool.not_false, if_true, h3, not_false_eq_true, Verdict.toError]

theorem ToLower_ascii (lowerTable : Nat → Nat) (s : GoString)
    (h : (s.all fun c => c < 0x80) = true) : ToLower lowerTable s = s.map lowerASCII := by
  unfold ToLower
  rw [if_pos h]

theorem mime_message_ne (mediaType : GoString) :
    str "MIME type not allowed: " ++ mediaType ≠ str "file size too large (max 50MB)" := by
  intro h
  have h1 : (str "MIME type not allowed: " ++ mediaType).head? = some 77 := by
    rw [List.head?_append_of_ne_nil _ (by decide)]
    decide
  rw [h] at h1
  revert h1
  decide

/-- Claim C3: for every filename, declared size and declared media type,
`validateFile` returns the error of the first failing check in the order size
(above 52428800), unsafe name (the directory-stripped filename contains `..`,
`/` or a backslash), extension (the lower-cased extension of the stripped
filename is not in the allow-list), media type (not exactly one of the eight
allowed types), and `nil` exactly when no check fails. The size error is returned
exactly for sizes above 52428800, whatever the name and the type: 52428801 is
too large, and a well-named file of exactly 52428800 bytes is accepted. -/
theorem validateFile_eq_spec (lowerTable : Nat → Nat) (filename : GoString) (size : Int)
    (mediaType : GoString) :
    validateFile lowerTable ⟨filename, size, mediaType⟩ =
      (validateSpec lowerTable filename size mediaType).toError mediaType ∧
    (validateFile lowerTable ⟨filename, size, mediaType⟩ =
      some (str "file size too large (max 50MB)") ↔ size > 52428800) ∧
    validateFile lowerTable ⟨filename, 52428801, mediaType⟩ =
      some (str "file size too large (max 50MB)") ∧
    validateFile lowerTable ⟨str "a.txt", 52428800, str "text/plain"⟩ = none := by
  refine ⟨validateFile_eq_toError _ _ _ _, ?_, ?_, ?_⟩
  · rw [validateFile_eq_toError]
    constructor
    · intro h
      by_contra hs
      unfold validateSpec at h
      simp only [hs, if_false] at h
      split_ifs at h <;> simp only [Verdict.toError] at h
      · exact absurd h (by decide)
      · exact absurd h (by decide)
      · exact mime_message_ne mediaType (Option.some.inj h)
      · exact absurd h (by decide)
    · intro h
      simp [validateSpec, h, Verdict.toError]
  · rw [validateFile_eq_toError]
    simp [validateSpec, Verdict.toError]
  · rw [validateFile_eq_toError]
    have hE : Ext (Base (str "a.txt")) = str ".txt" := by decide
    have hL : ToLower lowerTable (str ".txt") = str ".txt" := by
      rw [ToLower_ascii _ _ (by decide)]
      decide
    unfold validateSpec
    rw [hE, hL]
    decide

/-! ## `filepath.Base` -/

theorem takeWhile_eq_self {α : Type} (p : α → Bool) (l : List α)
    (h : ∀ x ∈ l, p x = true) : l.takeWhile p = l := by
  induction l with
  | nil => rfl
  | cons a l ih =>
    rw [List.takeWhile_cons, h a (by simp), if_pos rfl, ih (fun x hx => h x (by simp [hx]))]

theorem not_mem_lastElement (path : GoString) : 0x2F ∉ lastElement path := by
  intro h
  unfold lastElement at h
  rw [List.mem_reverse] at h
  have := @List.mem_takeWhile_imp _ (fun c => c != 0x2F) _ _ h
  simp at this

theorem lastElement_eq_self (path : GoString) (h : 0x2F ∉ path) : lastElement path = path := by
  unfold lastElement
  rw [takeWhile_eq_self, List.reverse_reverse]
  intro x hx
  rw [List.mem_reverse] at hx
  simp only [bne_iff_ne, ne_eq]
  rintro rfl
  exact h hx

theorem stripTrailingSlashes_eq_self (path : GoString) (h : 0x2F ∉ path) :
    stripTrailingSlashes path = path := by
  unfold stripTrailingSlashes
  cases hr : path.reverse with
  | nil => simp [hr, List.reverse_eq_nil_iff.mp hr]
  | cons a l =>
    have ha : a ≠ 0x2F := by
      rintro rfl
      exact h (List.mem_reverse.mp (by rw [hr]; simp))
    rw [List.dropWhile_cons, if_neg (by simpa using ha), ← hr, List.reverse_reverse]

theorem lastElement_strip_eq_nil_iff (path : GoString) :
    lastElement (stripTrailingSlashes path) = [] ↔ ∀ b ∈ path, b = 0x2F := by
  unfold lastElement stripTrailingSlashes
  rw [List.reverse_reverse, List.reverse_eq_nil_iff]
  cases hd : path.reverse.dropWhile (fun c => c == 0x2F) with
  | nil =>
    rw [List.dropWhile_eq_nil_iff] at hd
    simp only [List.takeWhile_nil, true_iff]
    intro b hb
    simpa using hd b (List.mem_reverse.mpr hb)
  | cons x l =>
    have hx : ¬ (x == 0x2F) = true := by
      have := List.head_dropWhile_not (fun c => c == 0x2F) path.reverse (by rw [hd]; simp)
      simpa [hd] using this
    have hx' : x ≠ 0x2F := by simpa using hx
    have hmem : x ∈ path := by
      have : x ∈ path.reverse.dropWhile (fun c => c == 0x2F) := by rw [hd]; simp
      exact List.mem_reverse.mp ((List.dropWhile_sublist _).subset this)
    rw [List.takeWhile_cons, if_pos (by simpa using hx')]
    simp only [reduceCtorEq, false_iff]
    intro hall
    exact hx' (hall x hmem)

/-- The result of `Base` holds a slash only when it is the single slash. -/
theorem Base_slash (path : GoString) (h : 0x2F ∈ Base path) : Base path = [0x2F] := by
  unfold Base at h ⊢
  simp only at h ⊢
  split_ifs at h ⊢ with h1 h2
  · simp at h
  · rfl
  · exact absurd h (not_mem_lastElement _)

/-- `Base` returns the single slash exactly for non-empty paths made of slashes. -/
theorem Base_eq_slash_iff (path : GoString) :
    Base path = [0x2F] ↔ path ≠ [] ∧ ∀ b ∈ path, b = 0x2F := by
  unfold Base
  simp only
  split_ifs with h1 h2
  · subst h1; simp
  · simp only [true_iff]
    exact ⟨h1, (lastElement_strip_eq_nil_iff path).mp h2⟩
  · constructor
    · intro h
      have := not_mem_lastElement (stripTrailingSlashes path)
      rw [h] at this
      simp at this
    · rintro ⟨_, hall⟩
      exact absurd ((lastElement_strip_eq_nil_iff path).mpr hall) h2

/-- A non-empty string without a slash is its own base name. -/
theorem Base_eq_self (path : GoString) (h0 : path ≠ []) (h : 0x2F ∉ path) : Base path = path := by
  unfold Base
  simp only
  rw [if_neg h0, stripTrailingSlashes_eq_self path h, lastElement_eq_self path h, if_neg h0]

theorem Base_ne_nil (path : GoString) : Base path ≠ [] := by
  unfold Base
  simp only
  split_ifs with h1 h2
  · simp
  · simp
  · exact h2

/-- `Base` is idempotent: a base name is its own base name. -/
theorem Base_idem (path : GoString) : Base (Base path) = Base path := by
  by_cases hs : 0x2F ∈ Base path
  · rw [Base_slash path hs]; decide
  · exact Base_eq_self _ (Base_ne_nil path) hs

/-! ## Filenames with directory components -/

theorem invalid_message_ne_mime (mediaType : GoString) :
    str "MIME type not allowed: " ++ mediaType ≠ str "invalid filename" := by
  intro h
  have h1 : (str "MIME type not allowed: " ++ mediaType).head? = some 77 := by
    rw [List.head?_append_of_ne_nil _ (by decide)]
    decide
  rw [h] at h1
  revert h1
  decide

/-- Claim C1 as stated fails: `../../etc/passwd` with type `text/plain` and size 1
contains `../` and is rejected, but for its missing extension and not as an
unsafe filename; `../../etc/passwd.txt` and the absolute `/etc/passwd.txt` are
accepted. -/
theorem traversal_name_not_unsafe :
    str "../" <:+: str "../../etc/passwd" ∧
    validateFile (fun r => r) ⟨str "../../etc/passwd", 1, str "text/plain"⟩ =
      some (str "file type not allowed") ∧
    str "../" <:+: str "../../etc/passwd.txt" ∧
    validateFile (fun r => r) ⟨str "../../etc/passwd.txt", 1, str "text/plain"⟩ = none ∧
    (str "/etc/passwd.txt").head? = some 0x2F ∧
    validateFile (fun r => r) ⟨str "/etc/passwd.txt", 1, str "text/plain"⟩ = none ∧
    ¬ (∀ (lowerTable : Nat → Nat) (fh : FileHeader), fh.Size ≤ 52428800 →
        (str "../" <:+: fh.Filename ∨ fh.Filename.head? = some 0x2F) →
        validateFile lowerTable fh = some (str "invalid filename")) := by
  refine ⟨by decide, by decide, by decide, by decide, by decide, by decide, ?_⟩
  intro h
  have := h (fun r => r) ⟨str "../../etc/passwd.txt", 1, str "text/plain"⟩ (by decide)
    (Or.inl (by decide))
  revert this
  decide

/-- Claim C1 (amended): for every upload with declared size at most 52428800,
`validateFile` rejects with `invalid filename` exactly when the directory-stripped
filename (`filepath.Base`) contains `..`, a slash or a backslash, whatever the
extension and the declared media type; directory components in front of the last
element play no part: the filename and its base name get the same answer. -/
theorem validateFile_unsafe_name_iff (lowerTable : Nat → Nat) (fh : FileHeader)
    (hsize : fh.Size ≤ 52428800) :
    (validateFile lowerTable fh = some (str "invalid filename") ↔
      (str ".." <:+: Base fh.Filename ∨ 0x2F ∈ Base fh.Filename ∨ 0x5C ∈ Base fh.Filename)) ∧
    validateFile lowerTable fh =
      validateFile lowerTable ⟨Base fh.Filename, fh.Size, fh.ContentType⟩ := by
  constructor
  · obtain ⟨filename, size, mediaType⟩ := fh
    simp only at hsize
    rw [validateFile_eq_toError]
    unfold validateSpec
    have hs : ¬ size > 52428800 := by omega
    simp only [hs, if_false]
    by_cases h2 : str ".." <:+: Base filename ∨ 0x2F ∈ Base filename ∨ 0x5C ∈ Base filename
    · simp only [h2, if_true, Verdict.toError]
    · simp only [h2, if_false, iff_false]
      intro h
      split_ifs at h <;> simp only [Verdict.toError] at h <;>
        first
        | exact absurd h (by decide)
        | exact invalid_message_ne_mime mediaType (Option.some.inj h)
  · unfold validateFile
    simp only [Base_idem]

/-- The amended claim C1 at the filename `up/..hidden.txt`, whose base name
`..hidden.txt` contains `..`. -/
theorem validateFile_unsafe_name_iff_witness :
    (1 : Int) ≤ 52428800 ∧
    ((validateFile (fun r => r) ⟨str "up/..hidden.txt", 1, str "text/plain"⟩ =
        some (str "invalid filename") ↔
      (str ".." <:+: Base (str "up/..hidden.txt") ∨ 0x2F ∈ Base (str "up/..hidden.txt") ∨
        0x5C ∈ Base (str "up/..hidden.txt"))) ∧
    validateFile (fun r => r) ⟨str "up/..hidden.txt", 1, str "text/plain"⟩ =
      validateFile (fun r => r) ⟨Base (str "up/..hidden.txt"), 1, str "text/plain"⟩) :=
  ⟨by decide,
    validateFile_unsafe_name_iff (fun r => r) ⟨str "up/..hidden.txt", 1, str "text/plain"⟩
      (by decide)⟩

/-! ## `sanitizeFilename` -/

/-- A byte of an encoded rune is the rune itself, when ASCII, or at least 0x80. -/
theorem mem_encodeRune (r b : Nat) (h : b ∈ encodeRune r) : (r < 0x80 ∧ b = r) ∨ 0x80 ≤ b := by
  unfold encodeRune at h
  split_ifs at h with h1 h2 h3 h4 <;>
    simp only [List.mem_cons, List.mem_nil_iff, or_false] at h
  · exact Or.inl ⟨h1, h⟩
  all_goals right; omega

/-- A byte of the sanitized name is a rune of the base name that is kept, or a byte
of at least 0x80. -/
theorem mem_sanitizeFilename (filename : GoString) (b : Nat)
    (h : b ∈ sanitizeFilename filename) :
    (b ∈ Base filename ∧ 32 ≤ b ∧ b ≠ 0x22 ∧ b ≠ 0x27 ∧ b < 0x80) ∨ 0x80 ≤ b := by
  unfold sanitizeFilename stringsMap at h
  simp only [List.mem_flatMap] at h
  obtain ⟨c, hc, hb⟩ := h
  split at hb
  · simp at hb
  · rename_i r hr
    split_ifs at hr with hbad
    simp only [Option.some.injEq] at hr
    subst hr
    rcases mem_encodeRune c b hb with ⟨hlow, rfl⟩ | hhigh
    · left
      refine ⟨(mem_runes_iff _ _ hlow).mp hc, ?_, ?_, ?_, hlow⟩ <;> omega
    · exact Or.inr hhigh

/-- For a filename made of slashes the base name is `/`, and the sanitized name is
`/` as well. -/
theorem sanitizeFilename_slash :
    sanitizeFilename (str "/") = str "/" ∧ 0x2F ∈ sanitizeFilename (str "/") ∧
    sanitizeFilename (str "///") = str "/" := by
  decide

/-- The bytes and code points of a sanitized name: none below 32, no double quote,
no single quote; a slash only when the filename is non-empty and made of slashes
only, and no slash for a filename that `validateFile` accepts. -/
theorem sanitizeFilename_bytes (filename : GoString) :
    (∀ b ∈ sanitizeFilename filename, 32 ≤ b ∧ b ≠ 0x22 ∧ b ≠ 0x27) ∧
    (∀ r ∈ runes (sanitizeFilename filename), 32 ≤ r ∧ r ≠ 0x22 ∧ r ≠ 0x27) ∧
    (0x2F ∈ sanitizeFilename filename →
      filename ≠ [] ∧ (∀ b ∈ filename, b = 0x2F) ∧ sanitizeFilename filename = [0x2F]) ∧
    (∀ (lowerTable : Nat → Nat) (size : Int) (mediaType : GoString),
      validateFile lowerTable ⟨filename, size, mediaType⟩ = none →
      0x2F ∉ sanitizeFilename filename) := by
  have hbytes : ∀ b ∈ sanitizeFilename filename, 32 ≤ b ∧ b ≠ 0x22 ∧ b ≠ 0x27 := by
    intro b hb
    rcases mem_sanitizeFilename filename b hb with h | h <;> omega
  have hslash : 0x2F ∈ sanitizeFilename filename →
      filename ≠ [] ∧ (∀ b ∈ filename, b = 0x2F) ∧ sanitizeFilename filename = [0x2F] := by
    intro h
    rcases mem_sanitizeFilename filename _ h with h1 | h1
    · have hB := Base_slash filename h1.1
      obtain ⟨hne, hall⟩ := (Base_eq_slash_iff filename).mp hB
      refine ⟨hne, hall, ?_⟩
      unfold sanitizeFilename
      simp only [hB]
      decide
    · omega
  refine ⟨hbytes, ?_, hslash, ?_⟩
  · intro r hr
    by_cases hlow : r < 0x80
    · exact hbytes r ((mem_runes_iff _ r hlow).mp hr)
    · omega
  · intro lowerTable size mediaType hv hmem
    obtain ⟨_, _, _⟩ := hslash hmem
    have hB : 0x2F ∈ Base filename := by
      rw [(Base_eq_slash_iff filename).mpr ⟨by assumption, by assumption⟩]
      simp
    rw [validateFile_eq_toError] at hv
    unfold validateSpec at hv
    have hu : str ".." <:+: Base filename ∨ 0x2F ∈ Base filename ∨ 0x5C ∈ Base filename :=
      Or.inr (Or.inl hB)
    simp only [hu, if_true] at hv
    split_ifs at hv <;> simp [Verdict.toError] at hv

/-! ## Uniqueness of identifiers -/

theorem hexDigit_inj (v w : Nat) (hv : v < 16) (hw : w < 16) (h : hexDigit v = hexDigit w) :
    v = w := by
  unfold hexDigit at h
  split_ifs at h <;> omega

theorem md5Sum_byte (data : GoString) : ∀ b ∈ md5Sum data, b < 256 := by
  intro b hb
  simp only [md5Sum, le32, List.mem_append, List.mem_cons, List.mem_nil_iff, or_false] at hb
  rcases hb with ((h | h) | h) | h <;> rcases h with h | h | h | h <;> omega

/-- The hexadecimal rendering determines the bytes. -/
theorem hexString_inj : ∀ l1 l2 : GoString, (∀ b ∈ l1, b < 256) → (∀ b ∈ l2, b < 256) →
    hexString l1 = hexString l2 → l1 = l2 := by
  intro l1
  induction l1 with
  | nil =>
    intro l2 _ _ h
    cases l2 with
    | nil => rfl
    | cons b t => simp [hexString] at h
  | cons a t ih =>
    intro l2 h1 h2 h
    cases l2 with
    | nil => simp [hexString] at h
    | cons b u =>
      simp only [hexString, List.flatMap_cons, List.cons_append, List.nil_append,
        List.cons.injEq] at h
      obtain ⟨hh, hl, ht⟩ := h
      have ha := h1 a (by simp)
      have hb := h2 b (by simp)
      have e1 := hexDigit_inj _ _ (Nat.mod_lt _ (by norm_num)) (Nat.mod_lt _ (by norm_num)) hh
      have e2 := hexDigit_inj _ _ (Nat.mod_lt _ (by norm_num)) (Nat.mod_lt _ (by norm_num)) hl
      have hab : a = b := by omega
      subst hab
      rw [ih u (fun x hx => h1 x (by simp [hx])) (fun x hx => h2 x (by simp [hx])) ht]

/-- Claim C7 does not hold of the code: the identifiers of sequential calls of
`generateFileID` are not always pairwise distinct. Two calls with the same
filename that observe the same clock reading, or with filenames that differ only
in their directory, return the same identifier; a request with two such files is
answered 200 with two records, but keeps one index entry and one blob, and the
download of the identifier reported for the first file returns the bytes of the
second; the same happens for a request as it arrives with parts named `x/a.txt`
and `y/a.txt`. -/
theorem generateFileID_repeats :
    generateFileID (str "a.txt") 1700000000000000000 =
      str "4fdca8ff0667e41b73bc9f2d1ae9ac97" ∧
    generateFileID (str "x/a.txt") 1700000000000000000 =
      generateFileID (str "y/a.txt") 1700000000000000000 ∧
    ¬ (∀ calls : List (GoString × Int),
        (calls.map fun c => generateFileID c.1 c.2).Nodup) ∧
    (let u1 : Upload :=
        ⟨⟨str "a.txt", 1, str "text/plain"⟩, [1], false, 1700000000000000000, false, none, 0⟩
     let u2 : Upload :=
        ⟨⟨str "a.txt", 1, str "text/plain"⟩, [2], false, 1700000000000000000, false, none, 0⟩
     let r := uploadHandler (fun r => r) ⟨[], [], some (str "/srv")⟩ [u1, u2]
     r.2.status = 200 ∧ r.1.fileStore.length = 1 ∧ r.1.disk.length = 1 ∧
     (downloadHandler r.1 (generateFileID (str "a.txt") 1700000000000000000)).body
        = Body.file [2]) ∧
    ((uploadHandlerRequest (fun r => r) sampleWorld sampleTwins).2.status = 200 ∧
     (uploadHandlerRequest (fun r => r) sampleWorld sampleTwins).1.fileStore.length = 1 ∧
     (downloadHandler (uploadHandlerRequest (fun r => r) sampleWorld sampleTwins).1
        (generateFileID (str "x/a.txt") 1700000000000000000)).body = Body.file [2]) := by
  refine ⟨by decide, by decide, ?_, by decide, by decide⟩
  intro h
  have := h [(str "a.txt", 0), (str "a.txt", 0)]
  simp at this

/-- Identifiers repeat exactly when MD5 digests repeat: the identifiers of a sequence
of calls are pairwise distinct exactly when the digests of the strings
`<base name>-<clock reading>` are, and equal base names with equal clock readings
give equal identifiers. -/
theorem generateFileID_nodup_iff (calls : List (GoString × Int)) :
    ((calls.map fun c => generateFileID c.1 c.2).Nodup ↔
      (calls.map fun c => md5Sum (Base c.1 ++ str "-" ++ formatInt c.2)).Nodup) ∧
    (∀ (f1 f2 : GoString) (t1 t2 : Int),
      (generateFileID f1 t1 = generateFileID f2 t2 ↔
        md5Sum (Base f1 ++ str "-" ++ formatInt t1) =
          md5Sum (Base f2 ++ str "-" ++ formatInt t2)) ∧
      (Base f1 = Base f2 → t1 = t2 → generateFileID f1 t1 = generateFileID f2 t2)) := by
  have hinj : ∀ d1 d2 : GoString, hexString (md5Sum d1) = hexString (md5Sum d2) →
      md5Sum d1 = md5Sum d2 :=
    fun d1 d2 h => hexString_inj _ _ (md5Sum_byte d1) (md5Sum_byte d2) h
  constructor
  · have hmap : (calls.map fun c => generateFileID c.1 c.2) =
        (calls.map fun c => md5Sum (Base c.1 ++ str "-" ++ formatInt c.2)).map hexString := by
      rw [List.map_map]
      rfl
    rw [hmap]
    constructor
    · exact List.Nodup.of_map _
    · intro h
      apply List.Nodup.map_on _ h
      intro x hx y hy hxy
      simp only [List.mem_map] at hx hy
      obtain ⟨c, _, rfl⟩ := hx
      obtain ⟨d, _, rfl⟩ := hy
      exact hinj _ _ hxy
  · intro f1 f2 t1 t2
    refine ⟨⟨fun h => hinj _ _ h, fun h => ?_⟩, fun hb ht => ?_⟩
    · exact congrArg hexString h
    · unfold generateFileID
      simp only [hb, ht]

/-! ## The metadata index under uploads -/

theorem mem_set {α : Type} (m : GoMap α) (k : GoString) (v : α) (e : GoString × α)
    (h : e ∈ m.set k v) : e = (k, v) ∨ e ∈ m := by
  unfold GoMap.set at h
  rcases List.mem_cons.mp h with h | h
  · exact Or.inl h
  · exact Or.inr (List.mem_filter.mp h).1

/-- The record that the upload loop builds for a file. -/
theorem uploadOne_ok (lowerTable : Nat → Nat) (w w1 : World) (u : Upload) (fi : FileInfo)
    (h : uploadOne lowerTable w u = (w1, .ok fi)) :
    u.openFails = false ∧ validateFile lowerTable u.header = none ∧ u.createFails = false ∧
    u.copyFails = none ∧
    fi = ⟨generateFileID u.header.Filename u.idClock, u.header.Filename, u.header.Size,
      u.uploadTime, u.header.ContentType⟩ ∧
    w1 = { w with
      disk := w.disk.set (Join [uploadDir, generateFileID u.header.Filename u.idClock]) u.content
      fileStore := w.fileStore.set (generateFileID u.header.Filename u.idClock) fi } := by
  unfold uploadOne at h
  rcases ho : u.openFails with _ | _ <;>
    rcases hv : validateFile lowerTable u.header with _ | err <;>
    rcases hc : u.createFails with _ | _ <;>
    rcases hcp : u.copyFails with _ | n <;>
    simp only [ho, hv, hc, hcp, Bool.false_eq_true, if_false, if_true, Prod.mk.injEq,
      reduceCtorEq, and_false, Except.ok.injEq] at h
  obtain ⟨hw, hfi⟩ := h
  subst hfi
  exact ⟨rfl, rfl, rfl, rfl, rfl, hw.symm⟩

/-- A failing file leaves the index as it was. -/
theorem uploadOne_error (lowerTable : Nat → Nat) (w w1 : World) (u : Upload) (resp : Response)
    (h : uploadOne lowerTable w u = (w1, .error resp)) :
    w1.fileStore = w.fileStore ∧ w1.cwd = w.cwd := by
  unfold uploadOne at h
  rcases ho : u.openFails with _ | _ <;>
    rcases hv : validateFile lowerTable u.header with _ | err <;>
    rcases hc : u.createFails with _ | _ <;>
    rcases hcp : u.copyFails with _ | n <;>
    simp only [ho, hv, hc, hcp, Bool.false_eq_true, if_false, if_true, Prod.mk.injEq,
      reduceCtorEq, and_false, Except.error.injEq] at h <;>
    (rw [← h.1]; exact ⟨rfl, rfl⟩)

/-- A property of records that holds in the index and for the record of every
validated file of the request holds in the index after the loop. -/
theorem uploadLoop_store (lowerTable : Nat → Nat) (Q : FileInfo → Prop) :
    ∀ (files : List Upload) (w : World) (acc : List FileInfo),
    (∀ e ∈ w.fileStore, Q e.2) →
    (∀ u ∈ files, validateFile lowerTable u.header = none →
      Q ⟨generateFileID u.header.Filename u.idClock, u.header.Filename, u.header.Size,
        u.uploadTime, u.header.ContentType⟩) →
    ∀ e ∈ (uploadLoop lowerTable w acc files).1.fileStore, Q e.2 := by
  intro files
  induction files with
  | nil => intro w acc hw _; exact hw
  | cons u rest ih =>
    intro w acc hw hu
    unfold uploadLoop
    rcases hone : uploadOne lowerTable w u with ⟨w1, r⟩
    cases r with
    | error resp =>
      simp only
      rw [(uploadOne_error lowerTable w w1 u resp hone).1]
      exact hw
    | ok fi =>
      simp only
      obtain ⟨_, hv, _, _, hfi, hw1⟩ := uploadOne_ok lowerTable w w1 u fi hone
      apply ih
      · intro e he
        rw [hw1] at he
        rcases mem_set _ _ _ _ he with h | h
        · rw [h, hfi]
          exact hu u (by simp) hv
        · exact hw e h
      · intro u2 hu2 hv2
        exact hu u2 (by simp [hu2]) hv2

theorem uploadHandler_store (lowerTable : Nat → Nat) (Q : FileInfo → Prop) (files : List Upload)
    (w : World) (hw : ∀ e ∈ w.fileStore, Q e.2)
    (hu : ∀ u ∈ files, validateFile lowerTable u.header = none →
      Q ⟨generateFileID u.header.Filename u.idClock, u.header.Filename, u.header.Size,
        u.uploadTime, u.header.ContentType⟩) :
    (∀ e ∈ (uploadHandler lowerTable w files).1.fileStore, Q e.2) ∧
    (∀ e ∈ (apiUploadHandler lowerTable w files).1.fileStore, Q e.2) := by
  have hloop := uploadLoop_store lowerTable Q files w [] hw hu
  unfold uploadHandler apiUploadHandler
  constructor <;>
  · split_ifs
    · exact hw
    · rcases hl : uploadLoop lowerTable w [] files with ⟨w1, r⟩
      rw [hl] at hloop
      cases r <;> exact hloop

theorem runUploads_store (lowerTable : Nat → Nat) (Q : FileInfo → Prop) :
    ∀ (reqs : List (Bool × List Upload)) (w : World),
    (∀ e ∈ w.fileStore, Q e.2) →
    (∀ req ∈ reqs, ∀ u ∈ req.2, validateFile lowerTable u.header = none →
      Q ⟨generateFileID u.header.Filename u.idClock, u.header.Filename, u.header.Size,
        u.uploadTime, u.header.ContentType⟩) →
    ∀ e ∈ (runUploads lowerTable w reqs).fileStore, Q e.2 := by
  intro reqs
  induction reqs with
  | nil => intro w hw _; exact hw
  | cons req rest ih =>
    intro w hw hu
    obtain ⟨api, files⟩ := req
    unfold runUploads
    have hstep := uploadHandler_store lowerTable Q files w hw
      (fun u hu1 hv => hu (api, files) (by simp) u hu1 hv)
    apply ih
    · cases api
      · simpa using hstep.1
      · simpa using hstep.2
    · intro req2 hr2
      exact hu req2 (by simp [hr2])

/-- After uploads of parsed files into the empty index, every stored `OriginalName` is
the `Filename` of one of the file headers, unchanged, and that header passed
`validateFile`: its base name holds no `..`, no slash and no backslash, and the
name itself holds none when it is its own base name. -/
theorem runUploads_names (lowerTable : Nat → Nat) (disk : GoMap (List Nat))
    (cwd : Option GoString) (reqs : List (Bool × List Upload)) (e : GoString × FileInfo)
    (he : e ∈ (runUploads lowerTable (World.start disk cwd) reqs).fileStore) :
    (∃ req ∈ reqs, ∃ u ∈ req.2, e.2.OriginalName = u.header.Filename ∧
      validateFile lowerTable u.header = none) ∧
    ¬ str ".." <:+: Base e.2.OriginalName ∧ 0x2F ∉ Base e.2.OriginalName ∧
    0x5C ∉ Base e.2.OriginalName ∧
    (Base e.2.OriginalName = e.2.OriginalName →
      ¬ str ".." <:+: e.2.OriginalName ∧ 0x2F ∉ e.2.OriginalName ∧ 0x5C ∉ e.2.OriginalName) := by
  have key := runUploads_store lowerTable
    (fun fi => ∃ req ∈ reqs, ∃ u ∈ req.2, fi.OriginalName = u.header.Filename ∧
      validateFile lowerTable u.header = none)
    reqs (World.start disk cwd) (by intro e he; simp [World.start] at he)
    (fun req hreq u hu hv => ⟨req, hreq, u, hu, rfl, hv⟩) e he
  obtain ⟨req, hreq, u, hu, hname, hv⟩ := key
  have hsafe : ¬ (str ".." <:+: Base e.2.OriginalName ∨ 0x2F ∈ Base e.2.OriginalName ∨
      0x5C ∈ Base e.2.OriginalName) := by
    intro hbad
    rw [hname] at hbad
    rcases hh : u.header with ⟨filename, size, mediaType⟩
    rw [hh] at hv hbad
    rw [validateFile_eq_toError] at hv
    unfold validateSpec at hv
    simp only at hbad
    split_ifs at hv <;> contradiction
  refine ⟨⟨req, hreq, u, hu, hname, hv⟩, fun h => hsafe (Or.inl h),
    fun h => hsafe (Or.inr (Or.inl h)), fun h => hsafe (Or.inr (Or.inr h)), ?_⟩
  intro hb
  rw [hb] at hsafe
  exact ⟨fun h => hsafe (Or.inl h), fun h => hsafe (Or.inr (Or.inl h)),
    fun h => hsafe (Or.inr (Or.inr h))⟩

/-! ## `filepath.Clean` and the containment check -/

theorem cleanLoop_nil (rooted copying : Bool) (st : CleanState) :
    cleanLoop rooted copying st [] = st := by
  cases copying <;> rfl

/-- A separator in front of the remaining input is skipped. -/
theorem cleanLoop_slash (rooted : Bool) (st : CleanState) (b : GoString) :
    cleanLoop rooted false st (0x2F :: b) = cleanLoop rooted false st b := by
  cases b with
  | nil => simp [cleanLoop]
  | cons d rest => simp [cleanLoop]

theorem cleanLoop_copy_slash (rooted : Bool) (st : CleanState) (b : GoString) :
    cleanLoop rooted true st (0x2F :: b) = cleanLoop rooted false st b := by
  simp [cleanLoop]

theorem cleanLoop_dot_end (rooted : Bool) (st : CleanState) :
    cleanLoop rooted false st [0x2E] = st := by
  simp [cleanLoop]

theorem cleanLoop_dot_slash (rooted : Bool) (st : CleanState) (rest : GoString) :
    cleanLoop rooted false st (0x2E :: 0x2F :: rest) = cleanLoop rooted false st (0x2F :: rest) := by
  simp [cleanLoop]

theorem cleanLoop_dotdot (rooted : Bool) (st : CleanState) (rest : GoString)
    (h : rest = [] ∨ rest.head? = some 0x2F) :
    cleanLoop rooted false st (0x2E :: 0x2E :: rest) =
      cleanLoop rooted false (cleanDotDot rooted st) rest := by
  simp [cleanLoop, h]

/-- Outside the cases of a separator, of `.` and of `..`, the loop starts to copy a
path element. -/
theorem cleanLoop_start (rooted : Bool) (st : CleanState) (c : Nat) (l : GoString)
    (hc : c ≠ 0x2F)
    (hdot : ¬ (c = 0x2E ∧ (l = [] ∨ l.head? = some 0x2F)))
    (hdd : ¬ (c = 0x2E ∧ ∃ rest, l = 0x2E :: rest ∧ (rest = [] ∨ rest.head? = some 0x2F))) :
    cleanLoop rooted false st (c :: l) = cleanLoop rooted true (cleanStartElem rooted st c) l := by
  cases l with
  | nil =>
    have h46 : c ≠ 0x2E := fun h => hdot ⟨h, Or.inl rfl⟩
    simp [cleanLoop, hc, h46]
  | cons d rest =>
    have h2 : ¬ (c = 0x2E ∧ d = 0x2F) := fun h => hdot ⟨h.1, Or.inr (by simp [h.2])⟩
    have h3 : ¬ (c = 0x2E ∧ d = 0x2E ∧ (rest = [] ∨ rest.head? = some 0x2F)) :=
      fun h => hdd ⟨h.1, rest, by rw [h.2.1], h.2.2⟩
    simp only [cleanLoop, if_neg hc, if_neg h2, if_neg h3]

/-- The loop of `Clean` reads a path up to a separator as it reads that path alone,
and goes on from the state reached there. -/
theorem cleanLoop_append_slash (rooted : Bool) (b : GoString) :
    ∀ (n : Nat) (a : GoString), a.length ≤ n → ∀ (copying : Bool) (st : CleanState),
    cleanLoop rooted copying st (a ++ 0x2F :: b) =
      cleanLoop rooted false (cleanLoop rooted copying st a) (0x2F :: b) := by
  intro n
  induction n with
  | zero =>
    intro a ha copying st
    have : a = [] := List.length_eq_zero.mp (by omega)
    subst this
    cases copying
    · simp [cleanLoop_nil]
    · simp [cleanLoop_nil, cleanLoop_copy_slash, cleanLoop_slash]
  | succ n ih =>
    intro a ha copying st
    cases a with
    | nil =>
      cases copying
      · simp [cleanLoop_nil]
      · simp [cleanLoop_nil, cleanLoop_copy_slash, cleanLoop_slash]
    | cons c a1 =>
      have ha1 : a1.length ≤ n := by simpa using ha
      cases copying with
      | true =>
        simp only [List.cons_append, cleanLoop]
        split_ifs
        · exact ih a1 ha1 false st
        · exact ih a1 ha1 true _
      | false =>
        rw [List.cons_append]
        by_cases h47 : c = 0x2F
        · subst h47
          rw [cleanLoop_slash rooted st (a1 ++ 0x2F :: b), cleanLoop_slash rooted st a1]
          exact ih a1 ha1 false st
        by_cases hdot : c = 0x2E ∧ (a1 = [] ∨ a1.head? = some 0x2F)
        · obtain ⟨rfl, h | h⟩ := hdot
          · subst h
            rw [List.nil_append, cleanLoop_dot_slash, cleanLoop_dot_end]
          · cases a1 with
            | nil => simp at h
            | cons d a2 =>
              simp only [List.head?_cons, Option.some.injEq] at h
              subst h
              rw [List.cons_append, cleanLoop_dot_slash, cleanLoop_dot_slash]
              exact ih (0x2F :: a2) ha1 false st
        by_cases hdd : c = 0x2E ∧ ∃ rest, a1 = 0x2E :: rest ∧ (rest = [] ∨ rest.head? = some 0x2F)
        · obtain ⟨rfl, rest, rfl, h⟩ := hdd
          have hrest : rest.length ≤ n := by
            simp only [List.length_cons] at ha1
            omega
          have h2 : rest ++ 0x2F :: b = [] ∨ (rest ++ 0x2F :: b).head? = some 0x2F := by
            rcases h with h | h
            · subst h; simp
            · cases rest with
              | nil => simp
              | cons e r => simpa using h
          rw [List.cons_append, cleanLoop_dotdot rooted st _ h2, cleanLoop_dotdot rooted st _ h]
          exact ih rest hrest false _
        · have hdot2 : ¬ (c = 0x2E ∧ (a1 ++ 0x2F :: b = [] ∨ (a1 ++ 0x2F :: b).head? = some 0x2F)) := by
            rintro ⟨hc, h⟩
            apply hdot
            refine ⟨hc, ?_⟩
            cases a1 with
            | nil => exact Or.inl rfl
            | cons d a2 =>
              right
              simpa using h
          have hdd2 : ¬ (c = 0x2E ∧ ∃ rest, a1 ++ 0x2F :: b = 0x2E :: rest ∧
              (rest = [] ∨ rest.head? = some 0x2F)) := by
            rintro ⟨hc, rest, hr, h⟩
            cases a1 with
            | nil =>
              exact hdot ⟨hc, Or.inl rfl⟩
            | cons d a2 =>
              simp only [List.cons_append, List.cons.injEq] at hr
              obtain ⟨rfl, hr⟩ := hr
              apply hdd
              refine ⟨hc, a2, rfl, ?_⟩
              cases a2 with
              | nil => exact Or.inl rfl
              | cons e a3 =>
                right
                rw [← hr] at h
                simpa using h
          rw [cleanLoop_start rooted st c _ h47 hdot2 hdd2, cleanLoop_start rooted st c _ h47 hdot hdd]
          exact ih a1 ha1 true _

/-- The copying loop writes the bytes of an element up to its end. -/
theorem cleanLoop_copy (rooted : Bool) : ∀ (l : GoString) (st : CleanState),
    (∀ x ∈ l, x ≠ 0x2F) →
    cleanLoop rooted true st l = ⟨l.reverse ++ st.rout, st.dotdot⟩ := by
  intro l
  induction l with
  | nil => intro st _; simp [cleanLoop]
  | cons c l ih =>
    intro st h
    have hc : c ≠ 0x2F := h c (by simp)
    rw [cleanLoop, if_neg hc, ih _ (fun x hx => h x (by simp [hx]))]
    simp

/-- A path element that is neither `.` nor `..` is written after a separator. -/
theorem cleanLoop_element (rooted : Bool) (c : Nat) (l : GoString) (st : CleanState)
    (hc1 : c ≠ 0x2F) (hc2 : c ≠ 0x2E) (hl : ∀ x ∈ l, x ≠ 0x2F) :
    cleanLoop rooted false st (c :: l) =
      ⟨l.reverse ++ (cleanStartElem rooted st c).rout, st.dotdot⟩ := by
  have hdd : (cleanStartElem rooted st c).dotdot = st.dotdot := by
    unfold cleanStartElem
    split_ifs <;> rfl
  cases l with
  | nil =>
    simp only [cleanLoop, if_neg hc1, if_neg hc2, List.reverse_nil, List.nil_append]
    rw [← hdd]
  | cons d rest =>
    rw [cleanLoop, if_neg hc1, if_neg (by simp [hc2]), if_neg (by simp [hc2]),
      cleanLoop_copy rooted _ _ hl, hdd]

theorem cleanStartElem_dotdot (rooted : Bool) (st : CleanState) (c : Nat) :
    (cleanStartElem rooted st c).dotdot = st.dotdot := by
  unfold cleanStartElem
  split_ifs <;> rfl

theorem cleanStartElem_long (rooted : Bool) (st : CleanState) (c : Nat)
    (h : 2 ≤ st.rout.length) : (cleanStartElem rooted st c).rout = c :: 0x2F :: st.rout := by
  unfold cleanStartElem
  have h1 : (st.rout.length != 1) = true := by rw [bne_iff_ne]; omega
  have h0 : (st.rout.length != 0) = true := by rw [bne_iff_ne]; omega
  cases rooted <;> simp [h1, h0]

/-- State of the loop of `Clean` after the element `uploads`, from the state `st`. -/
theorem cleanLoop_uploads (rooted : Bool) (st : CleanState) :
    cleanLoop rooted false st (str "uploads") =
      ⟨[0x73, 0x64, 0x61, 0x6F, 0x6C, 0x70] ++ (cleanStartElem rooted st 0x75).rout, st.dotdot⟩ := by
  have h : str "uploads" = 0x75 :: [0x70, 0x6C, 0x6F, 0x61, 0x64, 0x73] := by decide
  rw [h, cleanLoop_element rooted _ _ st (by norm_num) (by norm_num) (by decide)]
  rfl

theorem cleanLoop_dot_uploads (rooted : Bool) (st : CleanState) :
    cleanLoop rooted false st (0x2F :: str "./uploads") =
      cleanLoop rooted false st (str "uploads") := by
  have h : str "./uploads" = 0x2E :: 0x2F :: str "uploads" := by decide
  rw [h, cleanLoop_slash, cleanLoop_dot_slash, cleanLoop_slash]

/-- A string of hexadecimal digits holds no slash and no dot. -/
theorem hex_no_separator (s : GoString) (h : s.all isHexByte = true) :
    ∀ x ∈ s, x ≠ 0x2F ∧ x ≠ 0x2E := by
  intro x hx
  have := List.all_eq_true.mp h x hx
  simp only [isHexByte, Bool.or_eq_true, Bool.and_eq_true, decide_eq_true_eq] at this
  omega

/-- State of the loop of `Clean` after `uploads/<id>` for a non-empty identifier of
hexadecimal digits: the identifier follows the element `uploads` and a separator. -/
theorem cleanLoop_uploads_id (rooted : Bool) (st : CleanState) (fileID : GoString)
    (hne : fileID ≠ []) (hhex : fileID.all isHexByte = true) :
    cleanLoop rooted false st (str "uploads" ++ 0x2F :: fileID) =
      ⟨fileID.reverse ++ 0x2F :: (cleanLoop rooted false st (str "uploads")).rout,
        st.dotdot⟩ := by
  have hsep := hex_no_separator fileID hhex
  rw [cleanLoop_append_slash rooted fileID _ (str "uploads") le_rfl, cleanLoop_slash]
  cases fileID with
  | nil => exact absurd rfl hne
  | cons c l =>
    rw [cleanLoop_element rooted c l _ (hsep c (by simp)).1 (hsep c (by simp)).2
      (fun x hx => (hsep x (by simp [hx])).1)]
    rw [cleanStartElem_long]
    · rw [cleanLoop_uploads]
      simp
    · rw [cleanLoop_uploads]
      simp

/-- The value of `filepath.Join(uploadDir, fileID)` for an identifier that passed the
gate. -/
theorem Join_uploadDir (fileID : GoString) (hne : fileID ≠ [])
    (hhex : fileID.all isHexByte = true) :
    Join [uploadDir, fileID] = str "uploads" ++ 0x2F :: fileID := by
  have h : uploadDir = 0x2E :: 0x2F :: str "uploads" := by decide
  have hu : (0x2E :: 0x2F :: str "uploads").isEmpty = false := rfl
  unfold Join
  rw [h]
  simp only [List.dropWhile_cons, hu, Bool.false_eq_true, if_false, joinSlash]
  unfold Clean
  simp only [List.cons_append, reduceCtorEq, if_false, List.head?_cons]
  have hr : (some 0x2E == some 0x2F) = false := by decide
  simp only [hr, Bool.false_eq_true, if_false]
  rw [cleanLoop_dot_slash, cleanLoop_slash, cleanLoop_uploads_id false _ fileID hne hhex,
    cleanLoop_uploads]
  have hs : (cleanStartElem false ⟨[], 0⟩ 0x75).rout = [0x75] := by decide
  simp only [hs]
  have hu2 : str "uploads" = [0x75, 0x70, 0x6C, 0x6F, 0x61, 0x64, 0x73] := by decide
  simp [hu2]

/-- Cleaning `wd/rest` for a non-empty `wd`: the loop first reads `wd`, then goes on
with the separator and `rest` from the state reached. -/
theorem Clean_append_slash (wd rest : GoString) (hwd : wd ≠ []) :
    Clean (wd ++ 0x2F :: rest) =
      if (cleanLoop (wd.head? == some 0x2F) false
            (cleanLoop (wd.head? == some 0x2F) false
              (if (wd.head? == some 0x2F) = true then ⟨[0x2F], 1⟩ else ⟨[], 0⟩)
              (if (wd.head? == some 0x2F) = true then wd.tail else wd))
            (0x2F :: rest)).rout = [] then [0x2E]
      else (cleanLoop (wd.head? == some 0x2F) false
            (cleanLoop (wd.head? == some 0x2F) false
              (if (wd.head? == some 0x2F) = true then ⟨[0x2F], 1⟩ else ⟨[], 0⟩)
              (if (wd.head? == some 0x2F) = true then wd.tail else wd))
            (0x2F :: rest)).rout.reverse := by
  cases wd with
  | nil => exact absurd rfl hwd
  | cons c wd1 =>
    unfold Clean
    simp only [List.cons_append, reduceCtorEq, if_false, List.head?_cons, List.tail_cons]
    by_cases hc : c = 0x2F
    · have hr : (some c == some 0x2F) = true := by simp [hc]
      simp only [hr, if_true]
      rw [cleanLoop_append_slash true rest _ wd1 le_rfl]
    · have hr : (some c == some 0x2F) = false := by simp [hc]
      simp only [hr, Bool.false_eq_true, if_false]
      rw [← List.cons_append, cleanLoop_append_slash false rest _ (c :: wd1) le_rfl]

/-- The absolute paths that `downloadHandler` compares, for an identifier that
passed the gate and any working directory: the path of the file is the absolute
upload directory followed by a separator and the identifier. -/
theorem Abs_upload_path (wd fileID : GoString) (hne : fileID ≠ [])
    (hhex : fileID.all isHexByte = true) :
    ∃ dir, Abs (some wd) uploadDir = some dir ∧
      Abs (some wd) (str "uploads" ++ 0x2F :: fileID) = some (dir ++ 0x2F :: fileID) := by
  have hu : uploadDir = 0x2E :: 0x2F :: str "uploads" := by decide
  have hs : str "uploads" = [0x75, 0x70, 0x6C, 0x6F, 0x61, 0x64, 0x73] := by decide
  have h1 : (uploadDir.head? == some 0x2F) = false := by decide
  have h2 : ((str "uploads" ++ 0x2F :: fileID).head? == some 0x2F) = false := by
    rw [hs]; rfl
  unfold Abs
  simp only [h1, h2, Bool.false_eq_true, if_false, Option.some.injEq]
  by_cases hwd : wd = []
  · subst hwd
    refine ⟨str "uploads", by decide, ?_⟩
    have hp : (str "uploads" ++ 0x2F :: fileID).isEmpty = false := by rw [hs]; rfl
    unfold Join
    simp only [List.dropWhile_cons, List.isEmpty_nil, if_true, hp, Bool.false_eq_true, if_false,
      List.dropWhile_nil, joinSlash]
    unfold Clean
    have hne2 : str "uploads" ++ 0x2F :: fileID ≠ [] := by rw [hs]; simp
    simp only [hne2, if_false, h2, Bool.false_eq_true]
    rw [cleanLoop_uploads_id false _ fileID hne hhex, cleanLoop_uploads]
    have hst : (cleanStartElem false ⟨[], 0⟩ 0x75).rout = [0x75] := by decide
    simp [hst, hs]
  · have hj : ∀ p : GoString, Join [wd, p] = Clean (wd ++ 0x2F :: p) := by
      intro p
      unfold Join
      have : wd.isEmpty = false := by
        cases wd with
        | nil => exact absurd rfl hwd
        | cons _ _ => rfl
      simp only [List.dropWhile_cons, this, Bool.false_eq_true, if_false, joinSlash]
    have hud : uploadDir = str "./uploads" := rfl
    rw [hj, hj, Clean_append_slash wd _ hwd, Clean_append_slash wd _ hwd, hud]
    generalize (wd.head? == some 0x2F) = rooted
    generalize cleanLoop rooted false (if rooted = true then (⟨[0x2F], 1⟩ : CleanState)
      else ⟨[], 0⟩) (if rooted = true then wd.tail else wd) = S
    rw [cleanLoop_dot_uploads, cleanLoop_slash, cleanLoop_uploads_id rooted S fileID hne hhex,
      cleanLoop_uploads]
    refine ⟨_, rfl, ?_⟩
    simp

/-- Claim C10: for every identifier that passes the gate (32 hexadecimal digits) and
every working directory, `Join(uploadDir, id)` is `uploads/<id>`, its absolute
path is the absolute upload directory followed by a separator and the
identifier, so the absolute upload directory is a string prefix of it; in every
state `downloadHandler` never answers 403. -/
theorem download_never_denied (w : World) (fileID : GoString)
    (hgate : (fileID.length != 32 || !isHexString fileID) = false) :
    Join [uploadDir, fileID] = str "uploads" ++ 0x2F :: fileID ∧
    (∀ wd : GoString, ∃ dir, Abs (some wd) uploadDir = some dir ∧
      Abs (some wd) (Join [uploadDir, fileID]) = some (dir ++ 0x2F :: fileID) ∧
      HasPrefix (dir ++ 0x2F :: fileID) dir = true) ∧
    (downloadHandler w fileID).status ≠ 403 := by
  have hm : matchesHex32 fileID = true := by
    rw [gate_eq] at hgate
    simpa using hgate
  unfold matchesHex32 at hm
  rw [Bool.and_eq_true, beq_iff_eq] at hm
  obtain ⟨hlen, hhex⟩ := hm
  have hne : fileID ≠ [] := by
    intro h
    rw [h] at hlen
    simp at hlen
  have hjoin := Join_uploadDir fileID hne hhex
  have habs : ∀ wd : GoString, ∃ dir, Abs (some wd) uploadDir = some dir ∧
      Abs (some wd) (Join [uploadDir, fileID]) = some (dir ++ 0x2F :: fileID) ∧
      HasPrefix (dir ++ 0x2F :: fileID) dir = true := by
    intro wd
    obtain ⟨dir, h1, h2⟩ := Abs_upload_path wd fileID hne hhex
    refine ⟨dir, h1, by rw [hjoin]; exact h2, ?_⟩
    unfold HasPrefix
    rw [List.isPrefixOf_iff_prefix]
    exact List.prefix_append _ _
  refine ⟨hjoin, habs, ?_⟩
  unfold downloadHandler
  rw [hgate]
  simp only [Bool.false_eq_true, if_false]
  cases w.fileStore.get fileID with
  | none => simp [httpError]
  | some fi =>
    simp only
    cases hc : w.cwd with
    | none =>
      have : Abs none (Join [uploadDir, fileID]) = none := by
        rw [hjoin]
        have hs : str "uploads" = [0x75, 0x70, 0x6C, 0x6F, 0x61, 0x64, 0x73] := by decide
        rw [hs]
        rfl
      rw [this]
      simp [httpError]
    | some wd =>
      obtain ⟨dir, h1, h2, h3⟩ := habs wd
      rw [h2, h1]
      simp only [Option.getD_some, h3, Bool.not_true, Bool.false_eq_true, if_false]
      cases w.disk.get (Join [uploadDir, fileID]) <;> simp [httpError]

/-- Claim C10 at the identifier of 32 zeros. -/
theorem download_never_denied_witness :
    ((List.replicate 32 0x30).length != 32 || !isHexString (List.replicate 32 0x30)) = false ∧
    (downloadHandler ⟨[], [], some (str "/srv/app")⟩ (List.replicate 32 0x30)).status ≠ 403 :=
  ⟨by decide,
    (download_never_denied ⟨[], [], some (str "/srv/app")⟩ (List.replicate 32 0x30)
      (by decide)).2.2⟩

/-! ## The upload loop: order, failure, storage -/

theorem get_set_self {α : Type} (m : GoMap α) (k : GoString) (v : α) :
    (m.set k v).get k = some v := by
  simp [GoMap.get, GoMap.set]

theorem get_set_ne {α : Type} (m : GoMap α) (k k1 : GoString) (v : α) (h : k1 ≠ k) :
    (m.set k v).get k1 = m.get k1 := by
  unfold GoMap.get GoMap.set
  have hk : ((k == k1) = false) := by
    rw [beq_eq_false_iff_ne]
    exact fun e => h e.symm
  rw [List.find?_cons, hk]
  simp only
  congr 1
  induction m with
  | nil => rfl
  | cons e m ih =>
    by_cases he : e.1 = k
    · have h1 : (e.1 != k) = false := by simp [he]
      have h2 : (e.1 == k1) = false := by
        rw [beq_eq_false_iff_ne, he]
        exact fun e => h e.symm
      rw [List.filter_cons, h1, List.find?_cons, h2]
      simpa using ih
    · have h1 : (e.1 != k) = true := by simp [he]
      rw [List.filter_cons, h1]
      simp only [if_true, List.find?_cons]
      cases (e.1 == k1)
      · simpa using ih
      · rfl

/-- The loop over a request processes the files in order: after a prefix that
succeeds it goes on with the rest from the state and the records reached, and
after a prefix that fails it stops with that failure. -/
theorem uploadLoop_append (lowerTable : Nat → Nat) (post : List Upload) :
    ∀ (pre : List Upload) (w : World) (acc : List FileInfo),
    uploadLoop lowerTable w acc (pre ++ post) =
      match uploadLoop lowerTable w acc pre with
      | (w1, .ok recs) => uploadLoop lowerTable w1 recs post
      | (w1, .error resp) => (w1, .error resp) := by
  intro pre
  induction pre with
  | nil => intro w acc; rfl
  | cons u rest ih =>
    intro w acc
    rw [List.cons_append, uploadLoop, uploadLoop]
    rcases uploadOne lowerTable w u with ⟨w1, r⟩
    cases r with
    | error resp => rfl
    | ok fi => exact ih w1 (acc ++ [fi])

/-- What a failing file does: the answer and the state it leaves. -/
theorem uploadOne_fail (lowerTable : Nat → Nat) (w w1 : World) (u : Upload) (resp : Response)
    (h : uploadOne lowerTable w u = (w1, .error resp)) :
    w1.fileStore = w.fileStore ∧
    (∀ p, p ≠ Join [uploadDir, generateFileID u.header.Filename u.idClock] →
      w1.disk.get p = w.disk.get p) ∧
    ((u.openFails = true ∧ w1 = w ∧
        resp = httpError (str "\x7b\"error\": \"Cannot open file\"\x7d") 500) ∨
     (u.openFails = false ∧ ∃ err, validateFile lowerTable u.header = some err ∧ w1 = w ∧
        resp = httpError (str "\x7b\"error\": \"" ++ err ++ str "\"\x7d") 400) ∨
     (u.openFails = false ∧ validateFile lowerTable u.header = none ∧
        (u.createFails = true ∧ w1 = w ∨ u.createFails = false ∧ u.copyFails ≠ none) ∧
        resp = httpError (str "\x7b\"error\": \"Failed to save file\"\x7d") 500)) := by
  unfold uploadOne at h
  rcases ho : u.openFails with _ | _ <;>
    rcases hv : validateFile lowerTable u.header with _ | err <;>
    rcases hc : u.createFails with _ | _ <;>
    rcases hcp : u.copyFails with _ | n <;>
    simp only [ho, hv, hc, hcp, Bool.false_eq_true, if_false, if_true, Prod.mk.injEq,
      reduceCtorEq, and_false, Except.error.injEq] at h <;>
    obtain ⟨hw, hr⟩ := h <;> subst hw <;> subst hr <;>
    (simp; try (intro p hp; exact get_set_ne _ _ _ _ hp))

theorem isSome_get_set {α : Type} (m : GoMap α) (k k1 : GoString) (v : α)
    (h : (m.get k1).isSome = true ∨ k1 = k) : ((m.set k v).get k1).isSome = true := by
  by_cases hk : k1 = k
  · rw [hk, get_set_self]; rfl
  · rw [get_set_ne m k k1 v hk]
    rcases h with h | h
    · exact h
    · exact absurd h hk

/-- After a loop that succeeds there is one record per file, and every file has an
index entry and a blob under its identifier; entries and blobs that existed
before are still there. -/
theorem uploadLoop_ok_entries (lowerTable : Nat → Nat) :
    ∀ (files : List Upload) (w w1 : World) (acc recs : List FileInfo),
    uploadLoop lowerTable w acc files = (w1, .ok recs) →
    recs.length = acc.length + files.length ∧
    (∀ k, (w.fileStore.get k).isSome = true → (w1.fileStore.get k).isSome = true) ∧
    (∀ p, (w.disk.get p).isSome = true → (w1.disk.get p).isSome = true) ∧
    ∀ u ∈ files,
      (w1.fileStore.get (generateFileID u.header.Filename u.idClock)).isSome = true ∧
      (w1.disk.get (Join [uploadDir, generateFileID u.header.Filename u.idClock])).isSome
        = true := by
  intro files
  induction files with
  | nil =>
    intro w w1 acc recs h
    simp only [uploadLoop, Prod.mk.injEq, Except.ok.injEq] at h
    obtain ⟨rfl, rfl⟩ := h
    simp
  | cons u rest ih =>
    intro w w1 acc recs h
    rw [uploadLoop] at h
    rcases hone : uploadOne lowerTable w u with ⟨w0, r⟩
    rw [hone] at h
    cases r with
    | error resp => simp at h
    | ok fi =>
      simp only at h
      obtain ⟨_, _, _, _, _, hw0⟩ := uploadOne_ok lowerTable w w0 u fi hone
      obtain ⟨hlen, hstore, hdisk, hall⟩ := ih w0 w1 (acc ++ [fi]) recs h
      have hs0 : ∀ k, (w.fileStore.get k).isSome = true ∨
          k = generateFileID u.header.Filename u.idClock → (w0.fileStore.get k).isSome = true := by
        intro k hk
        rw [hw0]
        exact isSome_get_set _ _ _ _ hk
      have hd0 : ∀ p, (w.disk.get p).isSome = true ∨
          p = Join [uploadDir, generateFileID u.header.Filename u.idClock] →
          (w0.disk.get p).isSome = true := by
        intro p hp
        rw [hw0]
        exact isSome_get_set _ _ _ _ hp
      refine ⟨?_, fun k hk => hstore k (hs0 k (Or.inl hk)),
        fun p hp => hdisk p (hd0 p (Or.inl hp)), ?_⟩
      · simp only [List.length_append, List.length_cons, List.length_nil] at hlen ⊢
        omega
      · intro u1 hu1
        rcases List.mem_cons.mp hu1 with h1 | h1
        · subst h1
          exact ⟨hstore _ (hs0 _ (Or.inr rfl)), hdisk _ (hd0 _ (Or.inr rfl))⟩
        · exact hall u1 h1

/-- Claim C6: when the files before position k of a request are processed with
success and the file at position k fails, both upload handlers answer with the
failure of that file and the files after it play no part; the answer is 400 with
the reason of `validateFile` for a validation failure and 500 for a failure to
open or to store; the index is the one reached after the k files, every one of
them still has its index entry and its blob, and after a validation failure the
disk is unchanged as well, so nothing is created for the failing file or any
later one. -/
theorem upload_stops_at_first_failure (lowerTable : Nat → Nat) (w : World)
    (pre post : List Upload) (f : Upload) (recs : List FileInfo) (resp : Response)
    (hpre : (uploadLoop lowerTable w [] pre).2 = .ok recs)
    (hfail : (uploadOne lowerTable (uploadLoop lowerTable w [] pre).1 f).2 = .error resp) :
    uploadHandler lowerTable w (pre ++ f :: post) =
      ((uploadOne lowerTable (uploadLoop lowerTable w [] pre).1 f).1, resp) ∧
    apiUploadHandler lowerTable w (pre ++ f :: post) =
      ((uploadOne lowerTable (uploadLoop lowerTable w [] pre).1 f).1, resp) ∧
    recs.length = pre.length ∧
    (uploadOne lowerTable (uploadLoop lowerTable w [] pre).1 f).1.fileStore =
      (uploadLoop lowerTable w [] pre).1.fileStore ∧
    (∀ u ∈ pre,
      ((uploadOne lowerTable (uploadLoop lowerTable w [] pre).1 f).1.fileStore.get
        (generateFileID u.header.Filename u.idClock)).isSome = true ∧
      ((uploadOne lowerTable (uploadLoop lowerTable w [] pre).1 f).1.disk.get
        (Join [uploadDir, generateFileID u.header.Filename u.idClock])).isSome = true) ∧
    (∀ p, p ≠ Join [uploadDir, generateFileID f.header.Filename f.idClock] →
      (uploadOne lowerTable (uploadLoop lowerTable w [] pre).1 f).1.disk.get p =
        (uploadLoop lowerTable w [] pre).1.disk.get p) ∧
    (resp.status = 400 ∨ resp.status = 500) ∧
    (resp.status = 400 ↔ f.openFails = false ∧ validateFile lowerTable f.header ≠ none) ∧
    (∀ err, f.openFails = false → validateFile lowerTable f.header = some err →
      resp = httpError (str "\x7b\"error\": \"" ++ err ++ str "\"\x7d") 400 ∧
      (uploadOne lowerTable (uploadLoop lowerTable w [] pre).1 f).1 =
        (uploadLoop lowerTable w [] pre).1) := by
  rcases hl : uploadLoop lowerTable w [] pre with ⟨w1, r1⟩
  rw [hl] at hpre hfail
  simp only at hpre hfail
  subst hpre
  rcases ho : uploadOne lowerTable w1 f with ⟨w2, r2⟩
  rw [ho] at hfail
  simp only at hfail
  subst hfail
  simp only
  have hloop : uploadLoop lowerTable w [] (pre ++ f :: post) = (w2, .error resp) := by
    rw [uploadLoop_append, hl]
    simp only
    rw [uploadLoop, ho]
  obtain ⟨hlen, _, _, hall⟩ := uploadLoop_ok_entries lowerTable pre w w1 [] recs hl
  obtain ⟨hstore, hdisk, hcases⟩ := uploadOne_fail lowerTable w1 w2 f resp ho
  have hne : ¬ (pre ++ f :: post).length = 0 := by simp
  refine ⟨?_, ?_, by simpa using hlen, hstore, ?_, hdisk, ?_, ?_, ?_⟩
  · unfold uploadHandler
    rw [if_neg hne, hloop]
  · unfold apiUploadHandler
    rw [if_neg hne, hloop]
  · intro u hu
    obtain ⟨h1, h2⟩ := hall u hu
    refine ⟨by rw [hstore]; exact h1, ?_⟩
    by_cases hp : Join [uploadDir, generateFileID u.header.Filename u.idClock] =
        Join [uploadDir, generateFileID f.header.Filename f.idClock]
    · rcases hcases with ⟨_, hw, _⟩ | ⟨_, _, _, hw, _⟩ | ⟨hof, hvf, hst, _⟩
      · rw [hw]; exact h2
      · rw [hw]; exact h2
      · rcases hst with ⟨_, hw⟩ | ⟨hcf, hcp⟩
        · rw [hw]; exact h2
        · unfold uploadOne at ho
          rcases hcp2 : f.copyFails with _ | n
          · exact absurd hcp2 hcp
          · simp only [hof, hvf, hcf, hcp2, Bool.false_eq_true, if_false, Prod.mk.injEq] at ho
            rw [← ho.1, hp]
            simp only
            rw [get_set_self]
            rfl
    · rw [hdisk _ hp]
      exact h2
  · rcases hcases with ⟨_, _, hr⟩ | ⟨_, _, _, _, hr⟩ | ⟨_, _, _, hr⟩ <;>
      rw [hr] <;> simp [httpError]
  · rcases hcases with ⟨ho1, _, hr⟩ | ⟨ho1, err, hv, _, hr⟩ | ⟨ho1, hv, _, hr⟩
    · rw [hr]; simp [httpError, ho1]
    · rw [hr]; simp [httpError, ho1, hv]
    · rw [hr]; simp [httpError, ho1, hv]
  · intro err ho1 hv
    rcases hcases with ⟨ho2, _, _⟩ | ⟨_, err2, hv2, hw, hr⟩ | ⟨_, hv2, _, _⟩
    · rw [ho1] at ho2
      exact absurd ho2 (by simp)
    · rw [hv] at hv2
      simp only [Option.some.injEq] at hv2
      subst hv2
      exact ⟨hr, hw⟩
    · rw [hv] at hv2
      exact absurd hv2 (by simp)

/-- Claim C6 at a request of three files whose second file has a forbidden
extension. -/
theorem upload_stops_at_first_failure_witness :
    (uploadLoop (fun r => r) sampleWorld [] [sampleGood]).2 =
      .ok [⟨generateFileID (str "report.pdf") 1700000000000000000, str "report.pdf", 4,
        1700000000000000500, str "application/pdf"⟩] ∧
    (uploadOne (fun r => r) (uploadLoop (fun r => r) sampleWorld [] [sampleGood]).1 sampleBad).2 =
      .error (httpError (str "\x7b\"error\": \"file type not allowed\"\x7d") 400) ∧
    uploadHandler (fun r => r) sampleWorld ([sampleGood] ++ sampleBad :: [sampleOther]) =
      ((uploadOne (fun r => r) (uploadLoop (fun r => r) sampleWorld [] [sampleGood]).1
        sampleBad).1,
       httpError (str "\x7b\"error\": \"file type not allowed\"\x7d") 400) :=
  ⟨by decide, by decide,
    (upload_stops_at_first_failure (fun r => r) sampleWorld [sampleGood] [sampleOther] sampleBad
      [⟨generateFileID (str "report.pdf") 1700000000000000000, str "report.pdf", 4,
        1700000000000000500, str "application/pdf"⟩]
      (httpError (str "\x7b\"error\": \"file type not allowed\"\x7d") 400)
      (by decide) (by decide)).1⟩

/-! ## Upload followed by download -/

theorem generateFileID_gate (filename : GoString) (now : Int) :
    ((generateFileID filename now).length != 32 || !isHexString (generateFileID filename now))
      = false := by
  have hlen : (generateFileID filename now).length = 32 := by
    simp only [generateFileID, hexString_length, md5Sum_length]
  rw [gate_eq]
  simp only [matchesHex32, hlen, beq_self_eq_true, Bool.true_and, Bool.not_eq_false_eq_eq_true,
    Bool.not_eq_eq_eq_not, Bool.not_false, List.all_eq_true]
  exact fun c hc => isHexByte_of_lower c (hexString_lower _ c hc)

theorem uploadOne_cwd (lowerTable : Nat → Nat) (w : World) (u : Upload) :
    (uploadOne lowerTable w u).1.cwd = w.cwd := by
  unfold uploadOne
  rcases u.openFails with _ | _ <;>
    rcases validateFile lowerTable u.header with _ | err <;>
    rcases u.createFails with _ | _ <;>
    rcases u.copyFails with _ | n <;> rfl

theorem uploadLoop_cwd (lowerTable : Nat → Nat) : ∀ (files : List Upload) (w : World)
    (acc : List FileInfo), (uploadLoop lowerTable w acc files).1.cwd = w.cwd := by
  intro files
  induction files with
  | nil => intro w acc; rfl
  | cons u rest ih =>
    intro w acc
    rw [uploadLoop]
    have h1 := uploadOne_cwd lowerTable w u
    rcases hone : uploadOne lowerTable w u with ⟨w1, r⟩
    rw [hone] at h1
    cases r with
    | error resp => exact h1
    | ok fi =>
      simp only at h1 ⊢
      rw [ih w1, h1]

/-- The answer of `downloadHandler` for an identifier that passes the gate, has a
record and a blob, when the working directory can be read. -/
theorem downloadHandler_ok (w : World) (fileID wd : GoString) (fi : FileInfo)
    (content : List Nat)
    (hgate : (fileID.length != 32 || !isHexString fileID) = false)
    (hstore : w.fileStore.get fileID = some fi)
    (hdisk : w.disk.get (Join [uploadDir, fileID]) = some content)
    (hcwd : w.cwd = some wd) :
    downloadHandler w fileID =
      ⟨200,
        [(str "Content-Disposition",
            str "attachment; filename=\"" ++ sanitizeFilename fi.OriginalName ++ str "\""),
         (str "Content-Type", fi.MimeType),
         (str "X-Content-Type-Options", str "nosniff")],
        Body.file content⟩ := by
  have hm : matchesHex32 fileID = true := by
    rw [gate_eq] at hgate
    simpa using hgate
  unfold matchesHex32 at hm
  rw [Bool.and_eq_true, beq_iff_eq] at hm
  obtain ⟨hlen, hhex⟩ := hm
  have hne : fileID ≠ [] := by
    intro h
    rw [h] at hlen
    simp at hlen
  obtain ⟨dir, h1, h2⟩ := Abs_upload_path wd fileID hne hhex
  rw [← Join_uploadDir fileID hne hhex] at h2
  have h3 : HasPrefix (dir ++ 0x2F :: fileID) dir = true := by
    unfold HasPrefix
    rw [List.isPrefixOf_iff_prefix]
    exact List.prefix_append _ _
  unfold downloadHandler
  rw [hgate]
  simp only [Bool.false_eq_true, if_false, hstore, hcwd, h2, h1, Option.getD_some, h3,
    Bool.not_true, hdisk]

/-- Claim C5: when the files of a request before the last are processed with success
and the last file is accepted (it passes validation and its bytes are written),
with the declared size of the file equal to its number of bytes as the multipart
parser provides it, then right after the request the blob under the new
identifier holds exactly the uploaded bytes, the record in the index has a `Size`
equal to that number of bytes, and a download of the identifier answers 200 with
exactly these bytes and the recorded media type. -/
theorem upload_then_download (lowerTable : Nat → Nat) (w : World) (pre : List Upload)
    (u : Upload) (recs : List FileInfo) (fi : FileInfo) (wd : GoString)
    (hpre : (uploadLoop lowerTable w [] pre).2 = .ok recs)
    (hok : (uploadOne lowerTable (uploadLoop lowerTable w [] pre).1 u).2 = .ok fi)
    (hsize : u.header.Size = u.content.length)
    (hcwd : w.cwd = some wd) :
    uploadHandler lowerTable w (pre ++ [u]) =
      ((uploadOne lowerTable (uploadLoop lowerTable w [] pre).1 u).1,
        ⟨200, [(str "Content-Type", str "application/json")], Body.uploaded (recs ++ [fi])⟩) ∧
    apiUploadHandler lowerTable w (pre ++ [u]) =
      ((uploadOne lowerTable (uploadLoop lowerTable w [] pre).1 u).1,
        ⟨200, [(str "Content-Type", str "application/json")], Body.uploaded (recs ++ [fi])⟩) ∧
    (uploadOne lowerTable (uploadLoop lowerTable w [] pre).1 u).1.disk.get
      (Join [uploadDir, fi.ID]) = some u.content ∧
    (uploadOne lowerTable (uploadLoop lowerTable w [] pre).1 u).1.fileStore.get fi.ID = some fi ∧
    fi.Size = u.content.length ∧
    downloadHandler (uploadOne lowerTable (uploadLoop lowerTable w [] pre).1 u).1 fi.ID =
      ⟨200,
        [(str "Content-Disposition",
            str "attachment; filename=\"" ++ sanitizeFilename fi.OriginalName ++ str "\""),
         (str "Content-Type", u.header.ContentType),
         (str "X-Content-Type-Options", str "nosniff")],
        Body.file u.content⟩ := by
  have hcwd1 := uploadLoop_cwd lowerTable pre w []
  rcases hl : uploadLoop lowerTable w [] pre with ⟨w1, r1⟩
  rw [hl] at hpre hok hcwd1
  simp only at hpre hok hcwd1
  subst hpre
  have hcwd2 := uploadOne_cwd lowerTable w1 u
  rcases ho : uploadOne lowerTable w1 u with ⟨w2, r2⟩
  rw [ho] at hok hcwd2
  simp only at hok hcwd2
  subst hok
  simp only
  obtain ⟨_, _, _, _, hfi, hw2⟩ := uploadOne_ok lowerTable w1 w2 u fi ho
  have hid : fi.ID = generateFileID u.header.Filename u.idClock := by rw [hfi]
  have hmime : fi.MimeType = u.header.ContentType := by rw [hfi]
  have hloop : uploadLoop lowerTable w [] (pre ++ [u]) = (w2, .ok (recs ++ [fi])) := by
    rw [uploadLoop_append, hl]
    simp only
    rw [uploadLoop, ho]
    rfl
  have hne : ¬ (pre ++ [u]).length = 0 := by simp
  have hdisk : w2.disk.get (Join [uploadDir, fi.ID]) = some u.content := by
    rw [hw2, hid]
    exact get_set_self _ _ _
  have hstore : w2.fileStore.get fi.ID = some fi := by
    rw [hw2, hid]
    simp only
    rw [← hid]
    exact get_set_self _ _ _
  refine ⟨?_, ?_, hdisk, hstore, ?_, ?_⟩
  · unfold uploadHandler
    rw [if_neg hne, hloop]
  · unfold apiUploadHandler
    rw [if_neg hne, hloop]
  · rw [hfi]
    exact hsize
  · rw [← hmime]
    refine downloadHandler_ok w2 fi.ID wd fi u.content ?_ hstore hdisk ?_
    · rw [hid]
      exact generateFileID_gate _ _
    · rw [hcwd2, hcwd1, hcwd]

/-- Claim C5 at a request of two files, `report.pdf` then `notes.txt`. -/
theorem upload_then_download_witness :
    (uploadLoop (fun r => r) sampleWorld [] [sampleGood]).2 =
      .ok [⟨generateFileID (str "report.pdf") 1700000000000000000, str "report.pdf", 4,
        1700000000000000500, str "application/pdf"⟩] ∧
    (uploadOne (fun r => r) (uploadLoop (fun r => r) sampleWorld [] [sampleGood]).1
        sampleOther).2 =
      .ok ⟨generateFileID (str "notes.txt") 1700000000000002000, str "notes.txt", 2,
        1700000000000002500, str "text/plain"⟩ ∧
    sampleOther.header.Size = sampleOther.content.length ∧
    sampleWorld.cwd = some (str "/srv") ∧
    downloadHandler
        (uploadOne (fun r => r) (uploadLoop (fun r => r) sampleWorld [] [sampleGood]).1
          sampleOther).1
        (generateFileID (str "notes.txt") 1700000000000002000) =
      ⟨200,
        [(str "Content-Disposition",
            str "attachment; filename=\"" ++ sanitizeFilename (str "notes.txt") ++ str "\""),
         (str "Content-Type", sampleOther.header.ContentType),
         (str "X-Content-Type-Options", str "nosniff")],
        Body.file sampleOther.content⟩ :=
  ⟨by decide, by decide, by decide, by decide,
    (upload_then_download (fun r => r) sampleWorld [sampleGood] sampleOther
      [⟨generateFileID (str "report.pdf") 1700000000000000000, str "report.pdf", 4,
        1700000000000000500, str "application/pdf"⟩]
      ⟨generateFileID (str "notes.txt") 1700000000000002000, str "notes.txt", 2,
        1700000000000002500, str "text/plain"⟩
      (str "/srv") (by decide) (by decide) (by decide) (by decide)).2.2.2.2.2⟩

/-! ## Step budgets are sufficient -/

theorem decodeRune_width_pos (b : Nat) (t : GoString) : 1 ≤ (decodeRune (b :: t)).2 := by
  by_cases hb : b < 0x80
  · rw [decodeRune_ascii b t hb]
  · exact (decodeRune_high b t hb).2.1

/-- The rune sequence does not depend on the step budget once the budget reaches the
length of the string: the loop over the runes always comes to the end of the
string. -/
theorem runesAux_budget (fuel1 : Nat) : ∀ (fuel2 : Nat) (s : GoString),
    s.length ≤ fuel1 → s.length ≤ fuel2 → runesAux fuel1 s = runesAux fuel2 s := by
  induction fuel1 with
  | zero =>
    intro fuel2 s h1 _
    have : s = [] := List.length_eq_zero.mp (by omega)
    subst this
    cases fuel2 <;> rfl
  | succ n ih =>
    intro fuel2 s h1 h2
    cases s with
    | nil => cases fuel2 <;> rfl
    | cons b t =>
      cases fuel2 with
      | zero => simp at h2
      | succ m =>
        rw [runesAux_cons, runesAux_cons]
        have hw := decodeRune_width_pos b t
        have hlen : ((b :: t).drop (decodeRune (b :: t)).2).length ≤ t.length := by
          simp only [List.length_drop, List.length_cons]
          omega
        simp only [List.length_cons] at h1 h2
        rw [ih m _ (by omega) (by omega)]

/-- The decimal rendering does not depend on the step budget once the budget exceeds
the number: all digits are produced. -/
theorem decimalAux_budget (fuel1 : Nat) : ∀ (fuel2 n : Nat) (acc : GoString),
    n < fuel1 → n < fuel2 → decimalAux fuel1 n acc = decimalAux fuel2 n acc := by
  induction fuel1 with
  | zero => intro fuel2 n acc h; omega
  | succ k ih =>
    intro fuel2 n acc h1 h2
    cases fuel2 with
    | zero => omega
    | succ j =>
      unfold decimalAux
      split_ifs with h10
      · rfl
      · exact ih j (n / 10) _ (by omega) (by omega)

/-! ## Requests as they arrive -/

/-- Every file header that the parser hands over comes from a part of the request:
its `Filename` is the base name of the client's filename and its `Size` is the
number of bytes of the part. -/
theorem parseMultipartForm_files (req : Request) (files : List Upload)
    (h : parseMultipartForm req = some files) :
    ∀ u ∈ files, ∃ p ∈ req.parts, u = p.toUpload ∧
      u.header.Filename = Base p.clientFilename ∧ u.header.Size = u.content.length := by
  unfold parseMultipartForm at h
  split_ifs at h
  simp only [Option.some.injEq] at h
  subst h
  intro u hu
  rw [List.mem_map] at hu
  obtain ⟨p, hp, rfl⟩ := hu
  exact ⟨p, (List.mem_filter.mp hp).1, rfl, rfl, rfl⟩

/-- A sequence of requests changes the state as the handlers on the parsed files do;
a request that is refused at parsing changes nothing. -/
theorem runRequests_eq_runUploads (lowerTable : Nat → Nat) :
    ∀ (reqs : List (Bool × Request)) (w : World),
    runRequests lowerTable w reqs =
      runUploads lowerTable w (reqs.map fun r => (r.1, (parseMultipartForm r.2).getD [])) := by
  intro reqs
  induction reqs with
  | nil => intro w; rfl
  | cons r rest ih =>
    intro w
    obtain ⟨api, req⟩ := r
    rw [List.map_cons, runRequests, runUploads, ih]
    congr 1
    unfold uploadHandlerRequest apiUploadHandlerRequest
    cases parseMultipartForm req with
    | none => cases api <;> rfl
    | some files => rfl

/-- The stored names after a sequence of requests: each is the base name of the
filename a client sent in a part of one of the requests, and it passed
`validateFile`. -/
theorem runRequests_names (lowerTable : Nat → Nat) (disk : GoMap (List Nat))
    (cwd : Option GoString) (reqs : List (Bool × Request)) (e : GoString × FileInfo)
    (he : e ∈ (runRequests lowerTable (World.start disk cwd) reqs).fileStore) :
    (∃ req ∈ reqs, ∃ p ∈ req.2.parts, e.2.OriginalName = Base p.clientFilename) ∧
    (∃ size mediaType, validateFile lowerTable ⟨e.2.OriginalName, size, mediaType⟩ = none) ∧
    ¬ str ".." <:+: e.2.OriginalName ∧ 0x2F ∉ e.2.OriginalName ∧ 0x5C ∉ e.2.OriginalName := by
  rw [runRequests_eq_runUploads] at he
  obtain ⟨⟨r1, hr1, u, hu, hname, hv⟩, _, _, _, hstrip⟩ :=
    runUploads_names lowerTable disk cwd _ e he
  rw [List.mem_map] at hr1
  obtain ⟨r, hr, rfl⟩ := hr1
  simp only at hu
  cases hparse : parseMultipartForm r.2 with
  | none =>
    rw [hparse] at hu
    simp at hu
  | some files =>
    rw [hparse] at hu
    simp only [Option.getD_some] at hu
    obtain ⟨p, hp, _, hfn, _⟩ := parseMultipartForm_files r.2 files hparse u hu
    have hbase : e.2.OriginalName = Base p.clientFilename := by rw [hname, hfn]
    have hidem : Base e.2.OriginalName = e.2.OriginalName := by rw [hbase, Base_idem]
    refine ⟨⟨r, hr, p, hp, hbase⟩, ⟨u.header.Size, u.header.ContentType, ?_⟩, hstrip hidem⟩
    rw [hname]
    exact hv

/-- Claim C2: starting from the empty index, after any sequence of upload requests to
`uploadHandler` and `apiUploadHandler`, every `FileInfo` stored in `fileStore` has
an `OriginalName` that holds no slash, no backslash and no `..`; it is the
filename a client sent in one of the requests, stripped of its directory
components. -/
theorem stored_names_stripped (lowerTable : Nat → Nat) (disk : GoMap (List Nat))
    (cwd : Option GoString) (reqs : List (Bool × Request)) (e : GoString × FileInfo)
    (he : e ∈ (runRequests lowerTable (World.start disk cwd) reqs).fileStore) :
    0x2F ∉ e.2.OriginalName ∧ 0x5C ∉ e.2.OriginalName ∧ ¬ str ".." <:+: e.2.OriginalName ∧
    ∃ req ∈ reqs, ∃ p ∈ req.2.parts, e.2.OriginalName = Base p.clientFilename := by
  obtain ⟨hfrom, _, h1, h2, h3⟩ := runRequests_names lowerTable disk cwd reqs e he
  exact ⟨h2, h3, h1, hfrom⟩

/-- Claim C2 at one request with a part named `../b.txt`: the stored name is `b.txt`. -/
theorem stored_names_stripped_witness :
    ((generateFileID (str "b.txt") 1700000000000003000,
        (⟨generateFileID (str "b.txt") 1700000000000003000, str "b.txt", 1,
          1700000000000003500, str "text/plain"⟩ : FileInfo)) ∈
      (runRequests (fun r => r) (World.start [] (some (str "/srv")))
        [(false, sampleRequest)]).fileStore) ∧
    (0x2F ∉ str "b.txt" ∧ 0x5C ∉ str "b.txt" ∧ ¬ str ".." <:+: str "b.txt" ∧
      ∃ req ∈ [(false, sampleRequest)], ∃ p ∈ req.2.parts,
        str "b.txt" = Base p.clientFilename) :=
  ⟨by decide,
    stored_names_stripped (fun r => r) [] (some (str "/srv")) [(false, sampleRequest)]
      (generateFileID (str "b.txt") 1700000000000003000,
        ⟨generateFileID (str "b.txt") 1700000000000003000, str "b.txt", 1,
          1700000000000003500, str "text/plain"⟩)
      (by decide)⟩

/-- Claim C9: the result of `sanitizeFilename` is header-safe. For every filename
string it holds no control character (no byte and no code point below 32, so no
CR or LF), no double quote and no single quote, and no slash when `validateFile`
accepts the filename; for every name that the download handler passes to it, the
`OriginalName` of a record stored by a sequence of upload requests, it holds no
slash either. -/
theorem sanitizeFilename_safe (lowerTable : Nat → Nat) (disk : GoMap (List Nat))
    (cwd : Option GoString) (reqs : List (Bool × Request)) (e : GoString × FileInfo)
    (he : e ∈ (runRequests lowerTable (World.start disk cwd) reqs).fileStore) :
    (∀ b ∈ sanitizeFilename e.2.OriginalName, 32 ≤ b ∧ b ≠ 0x22 ∧ b ≠ 0x27 ∧ b ≠ 0x2F) ∧
    (∀ r ∈ runes (sanitizeFilename e.2.OriginalName),
      32 ≤ r ∧ r ≠ 0x22 ∧ r ≠ 0x27 ∧ r ≠ 0x2F) ∧
    (∀ filename : GoString,
      (∀ b ∈ sanitizeFilename filename, 32 ≤ b ∧ b ≠ 0x22 ∧ b ≠ 0x27) ∧
      (∀ r ∈ runes (sanitizeFilename filename), 32 ≤ r ∧ r ≠ 0x22 ∧ r ≠ 0x27) ∧
      (∀ (size : Int) (mediaType : GoString),
        validateFile lowerTable ⟨filename, size, mediaType⟩ = none →
        0x2F ∉ sanitizeFilename filename)) := by
  obtain ⟨_, ⟨size, mediaType, hv⟩, _⟩ := runRequests_names lowerTable disk cwd reqs e he
  obtain ⟨hb, hr, _, hval⟩ := sanitizeFilename_bytes e.2.OriginalName
  have hno : 0x2F ∉ sanitizeFilename e.2.OriginalName := hval lowerTable size mediaType hv
  refine ⟨?_, ?_, ?_⟩
  · intro b hbm
    obtain ⟨h1, h2, h3⟩ := hb b hbm
    refine ⟨h1, h2, h3, ?_⟩
    rintro rfl
    exact hno hbm
  · intro r hrm
    obtain ⟨h1, h2, h3⟩ := hr r hrm
    refine ⟨h1, h2, h3, ?_⟩
    rintro rfl
    exact hno ((mem_runes_iff _ _ (by norm_num)).mp hrm)
  · intro filename
    obtain ⟨hb2, hr2, _, hval2⟩ := sanitizeFilename_bytes filename
    exact ⟨hb2, hr2, fun size mediaType h => hval2 lowerTable size mediaType h⟩

/-- Claim C9 at the record stored for a part named `../b.txt`. -/
theorem sanitizeFilename_safe_witness :
    ((generateFileID (str "b.txt") 1700000000000003000,
        (⟨generateFileID (str "b.txt") 1700000000000003000, str "b.txt", 1,
          1700000000000003500, str "text/plain"⟩ : FileInfo)) ∈
      (runRequests (fun r => r) (World.start [] (some (str "/srv")))
        [(true, sampleRequest)]).fileStore) ∧
    (∀ b ∈ sanitizeFilename (str "b.txt"), 32 ≤ b ∧ b ≠ 0x22 ∧ b ≠ 0x27 ∧ b ≠ 0x2F) :=
  ⟨by decide,
    (sanitizeFilename_safe (fun r => r) [] (some (str "/srv")) [(true, sampleRequest)]
      (generateFileID (str "b.txt") 1700000000000003000,
        ⟨generateFileID (str "b.txt") 1700000000000003000, str "b.txt", 1,
          1700000000000003500, str "text/plain"⟩)
      (by decide)).1⟩

end FileShare
